import Mathlib

/-!
Verification of the ConvolutionalNeuralNetwork training engine.

Scalars (C++ `float`) are modelled as rationals, flat buffers as functions
`Nat → ℚ`, and the C-style `for (int i = 0; i < n; i++)` loops as the
`loop` recursion below, which applies a body to the indices `0, …, n-1`
in order while threading the mutable state.
-/

namespace CNN

/-- Pointwise update of a flat buffer, modelling `buf[i] = v`. -/
def upd (f : Nat → ℚ) (i : Nat) (v : ℚ) : Nat → ℚ :=
  fun k => if k = i then v else f k

/-- `loop body s n` runs `for (i = 0; i < n; i++) s = body s i`. -/
def loop {σ : Type} (body : σ → Nat → σ) (s : σ) : Nat → σ
  | 0 => s
  | n + 1 => body (loop body s n) n

/-- Sequential accumulation `for (i = 0; i < n; i++) sum += f i`,
as used by the dot-product and cost loops. -/
def csum (f : Nat → ℚ) : Nat → ℚ
  | 0 => 0
  | n + 1 => csum f n + f n

namespace fully_connected_layer

/-- Mutable state of `fully_connected_layer::apply_deltas`:
the parameters and their delta accumulators, as flat buffers. -/
structure params where
  biases : Nat → ℚ
  bias_deltas : Nat → ℚ
  weights : Nat → ℚ
  weight_deltas : Nat → ℚ

/-- Body of the bias loop of `fully_connected_layer::apply_deltas`:
`biases[i] = biases[i] - (bias_deltas[i] / training_data_count) * learning_rate;
 bias_deltas[i] = 0;`. -/
def apply_deltas_bias_step (training_data_count : Nat) (learning_rate : ℚ)
    (p : params) (i : Nat) : params :=
  { p with
    biases := upd p.biases i
      (p.biases i - (p.bias_deltas i / (training_data_count : ℚ)) * learning_rate)
    bias_deltas := upd p.bias_deltas i 0 }

/-- Body of the weight loop of `fully_connected_layer::apply_deltas`. -/
def apply_deltas_weight_step (training_data_count : Nat) (learning_rate : ℚ)
    (p : params) (i : Nat) : params :=
  { p with
    weights := upd p.weights i
      (p.weights i - (p.weight_deltas i / (training_data_count : ℚ)) * learning_rate)
    weight_deltas := upd p.weight_deltas i 0 }

/-- `fully_connected_layer::apply_deltas(training_data_count, learning_rate)`:
first the bias loop over `biases.item_count()`, then the weight loop over
`weights.item_count()`. -/
def apply_deltas (bias_count weight_count : Nat) (training_data_count : Nat)
    (learning_rate : ℚ) (p : params) : params :=
  loop (apply_deltas_weight_step training_data_count learning_rate)
    (loop (apply_deltas_bias_step training_data_count learning_rate) p bias_count)
    weight_count

end fully_connected_layer

namespace gpu_math

def THREADS_PER_BLOCK : Nat := 1024

/-- `get_block_count(size)`: `((size - 1) / THREADS_PER_BLOCK) + 1`
(for `size ≥ 1` this matches the C unsigned arithmetic). -/
def get_block_count (size : Nat) : Nat := (size - 1) / THREADS_PER_BLOCK + 1

/-- Flat buffer held in device memory (`gpu_memory<float>`). -/
structure gpu_memory where
  data : Nat → ℚ
  item_count : Nat

/-- Joint effect of launching `get_block_count size` blocks of
`THREADS_PER_BLOCK` threads of a kernel whose body guards `index < size`
and writes exactly output cell `index`: one lane exists per global index
below the launched thread count, and each lane writes its own cell. -/
def gpu_launch (size : Nat) (body : Nat → ℚ) (old : Nat → ℚ) : Nat → ℚ :=
  fun i =>
    if i < get_block_count size * THREADS_PER_BLOCK ∧ i < size then body i else old i

/-- `get_idx(x, y, z, height, width) = x + y*width + z*width*height`. -/
def get_idx (x y z height width : Nat) : Nat := x + y * width + z * width * height

/-- Body of `gpu_dot_product_kernel` for output lane `activation_idx`. -/
def gpu_dot_product_kernel (weights input : Nat → ℚ)
    (input_size activations_size activation_idx : Nat) : ℚ :=
  csum (fun i =>
    weights (get_idx i activation_idx 0 activations_size input_size) * input i)
    input_size

/-- `gpu_dot_product`: validates sizes, then launches the kernel over the
activation index space. On a validation failure nothing is dispatched, so the
output buffer is untouched. -/
def gpu_dot_product (gpu_weights gpu_input gpu_activations : gpu_memory) :
    Except String gpu_memory :=
  if gpu_weights.item_count = 0 ∨ gpu_input.item_count = 0 ∨
      gpu_activations.item_count = 0 then
    .error "gpu_dot_product failed. size must be greater than 0"
  else if gpu_activations.item_count * gpu_input.item_count ≠ gpu_weights.item_count then
    .error "gpu_dot_product failed. false format"
  else
    .ok ⟨gpu_launch gpu_activations.item_count
        (gpu_dot_product_kernel gpu_weights.data gpu_input.data
          gpu_input.item_count gpu_activations.item_count)
        gpu_activations.data,
      gpu_activations.item_count⟩

/-- Body of `gpu_add_matrices_kernel` for lane `index`. -/
def gpu_add_matrices_kernel (a b : Nat → ℚ) (index : Nat) : ℚ := a index + b index

/-- `gpu_add`. -/
def gpu_add (gpu_memory_a gpu_memory_b gpu_memory_result : gpu_memory) :
    Except String gpu_memory :=
  if gpu_memory_a.item_count = 0 ∨
      gpu_memory_a.item_count ≠ gpu_memory_b.item_count ∨
      gpu_memory_a.item_count ≠ gpu_memory_result.item_count then
    .error "gpu_add_matrices failed. size must be greater than 0"
  else
    .ok ⟨gpu_launch gpu_memory_a.item_count
        (gpu_add_matrices_kernel gpu_memory_a.data gpu_memory_b.data)
        gpu_memory_result.data,
      gpu_memory_result.item_count⟩

/-- Body of `gpu_sigmoid_kernel`: `1 / (1 + exp(-x))`, with the exponential
supplied as an abstract scalar function (host and device call the same one). -/
def gpu_sigmoid_kernel (exp_fn : ℚ → ℚ) (data : Nat → ℚ) (index : Nat) : ℚ :=
  1 / (1 + exp_fn (-(data index)))

/-- `gpu_sigmoid`. -/
def gpu_sigmoid (exp_fn : ℚ → ℚ) (m : gpu_memory) : Except String gpu_memory :=
  if m.item_count = 0 then
    .error "gpu_sigmoid failed. size must be greater than 0"
  else
    .ok ⟨gpu_launch m.item_count (gpu_sigmoid_kernel exp_fn m.data) m.data,
      m.item_count⟩

/-- Body of `gpu_relu_kernel`: `data[index] > 0 ? data[index] : 0`. -/
def gpu_relu_kernel (data : Nat → ℚ) (index : Nat) : ℚ :=
  if data index > 0 then data index else 0

/-- `gpu_relu`. -/
def gpu_relu (m : gpu_memory) : Except String gpu_memory :=
  if m.item_count = 0 then
    .error "gpu_relu failed. size must be greater than 0"
  else
    .ok ⟨gpu_launch m.item_count (gpu_relu_kernel m.data) m.data, m.item_count⟩

/-- `is_whole_number` on a float value, modelled on ℚ. -/
def is_whole_number (q : ℚ) : Bool := q.den = 1

/-- `gpu_valid_cross_correlation`: all the shape validations of the source,
then one launch of `gpu_valid_cross_correlation_kernel` per kernel. The
kernel's body is EMPTY in the source (an unimplemented TODO), so the launches
write nothing and the activation buffer is returned unchanged. -/
def gpu_valid_cross_correlation (gpu_input : gpu_memory)
    (gpu_kernel_weights : List gpu_memory) (gpu_activations : gpu_memory)
    (input_size input_depth kernel_size kernel_count stride output_size : Nat) :
    Except String gpu_memory :=
  let weights0 := gpu_kernel_weights.headD ⟨fun _ => 0, 0⟩
  if gpu_input.item_count = 0 ∨ gpu_activations.item_count = 0 ∨
      gpu_kernel_weights.length = 0 then
    .error "gpu_valid_cross_correlation failed. size must be greater than 0"
  else if input_size * input_size * input_depth ≠ gpu_input.item_count then
    .error "input size is different on gpu and cpu"
  else if ¬ is_whole_number ((weights0.item_count / kernel_count : Nat) : ℚ) then
    .error "gpu kernels could not be devided by kernel count"
  else if kernel_size * kernel_size * input_depth ≠ weights0.item_count / kernel_count then
    .error "kernel size false"
  else
    let output_side_size : ℚ := ((input_size : ℚ) - (kernel_size : ℚ)) / (stride : ℚ) + 1
    if ¬ is_whole_number output_side_size then
      .error "gpu_valid_cross_correlation failed. this stride, size combination cannot be used"
    else if (gpu_activations.item_count : ℚ) ≠
        output_side_size * output_side_size * (kernel_count : ℚ) then
      .error "gpu_valid_cross_correlation failed. false format"
    else
      .ok gpu_activations

/-- Modelled from the spec: the sequential host dot product
(`matrix::dot_product_flat`; matrix.cpp is not under src/):
`activations[i] = Σ_j weights[j,i] · input[j]`, weight layout `j + i·input_count`. -/
def host_dot_product (weights input : Nat → ℚ) (input_size i : Nat) : ℚ :=
  csum (fun j => weights (j + i * input_size) * input j) input_size

/-- Modelled from the spec: the sequential host elementwise add
(`matrix::add_flat`; matrix.cpp is not under src/). -/
def host_add (a b : Nat → ℚ) (i : Nat) : ℚ := a i + b i

/-- Modelled from the spec: the host sigmoid (math_functions is not under
src/), with the same abstract exponential as the device kernel. -/
def host_sigmoid (exp_fn : ℚ → ℚ) (x : ℚ) : ℚ := 1 / (1 + exp_fn (-x))

/-- Modelled from the spec: the host ReLU `max(0, x)` (math_functions is
not under src/). -/
def host_relu (x : ℚ) : ℚ := max 0 x

/-- Modelled from the spec: the sequential host valid cross-correlation
(`matrix::valid_cross_correlation`; matrix.cpp is not under src/): the output
cell `(x, y)` of the depth slice of one kernel is the sliding-window weighted
sum of the input window at `(x·stride, y·stride)` against that kernel over
all input depths. -/
def host_valid_cross_correlation (input kernel : Nat → ℚ)
    (input_size kernel_size stride input_depth x y : Nat) : ℚ :=
  csum (fun dz => csum (fun ky => csum (fun kx =>
      input (get_idx (x * stride + kx) (y * stride + ky) dz input_size input_size) *
        kernel (get_idx kx ky dz kernel_size kernel_size))
    kernel_size) kernel_size) input_depth

end gpu_math

namespace fully_connected_layer

/-- Flat index of the weight connecting input unit `j` to neuron `i`:
`weights.get_at_host(vector3(j, i))` on a matrix of width `input_count`
(flat layout `x + y·width`). -/
def widx (j i input_count : Nat) : Nat := j + i * input_count

/-- Read-only context of `fully_connected_layer::back_propagation`:
the layer sizes, the stored activations, the weights, the input the
activations were computed from, the activation function's inverse and
derivative tables, and whether a predecessor error tensor exists
(`passing_error != nullptr`). -/
structure back_ctx where
  neuron_count : Nat
  input_count : Nat
  activations : Nat → ℚ
  weights : Nat → ℚ
  input : Nat → ℚ
  inverse : ℚ → ℚ
  deriv : ℚ → ℚ
  has_passing : Bool

/-- Mutable state of `fully_connected_layer::back_propagation`:
this layer's error tensor, both delta accumulators, and the
predecessor's error tensor (`passing_error`). -/
structure back_state where
  error : Nat → ℚ
  bias_deltas : Nat → ℚ
  weight_deltas : Nat → ℚ
  passing : Nat → ℚ

/-- Local derivative computed for neuron `i`:
`DERIVATIVE[activation_fn](INVERSE[activation_fn](activations[i]))`. -/
def deriv_at (c : back_ctx) (i : Nat) : ℚ :=
  c.deriv (c.inverse (c.activations i))

/-- Inner loop body of `back_propagation` over input index `j`, for a fixed
neuron `i` with its read error value and local derivative:
accumulates the weight delta and, when a predecessor exists, the passing
error. -/
def back_inner (c : back_ctx) (i : Nat) (error_value activation_derivative : ℚ)
    (st : back_state) (j : Nat) : back_state :=
  let w := widx j i c.input_count
  let weight_change := error_value * activation_derivative * c.input j
  let st1 := { st with
    weight_deltas := upd st.weight_deltas w (st.weight_deltas w + weight_change) }
  if c.has_passing then
    { st1 with
      passing := upd st1.passing j
        (st1.passing j + error_value * activation_derivative * c.weights w) }
  else st1

/-- Outer loop body of `back_propagation` over neuron `i`: reads and zeroes
the error slot, accumulates the bias delta, then runs the inner loop. -/
def back_neuron (c : back_ctx) (st : back_state) (i : Nat) : back_state :=
  let error_value := st.error i
  let st1 := { st with error := upd st.error i 0 }
  let d := deriv_at c i
  let st2 := { st1 with
    bias_deltas := upd st1.bias_deltas i (st1.bias_deltas i + error_value * d) }
  loop (back_inner c i error_value d) st2 c.input_count

/-- `fully_connected_layer::back_propagation`: the outer loop over all neurons. -/
def back_propagation (c : back_ctx) (st : back_state) : back_state :=
  loop (back_neuron c) st c.neuron_count

end fully_connected_layer

namespace convolutional_layer

/-- One `conv_kernel`, as far as the claims depend on it.
Modelled from the spec: conv_kernel.cpp is not under src/; a kernel carries a
weight tensor of side `kernel_size` whose depth `set_kernel_depth` recomputes. -/
structure conv_kernel where
  kernel_size : ℤ
  depth : ℤ
deriving DecidableEq

/-- State of a `convolutional_layer`: hyperparameters, the kernels and their
delta counterparts, and the activation tensor's shape. -/
structure conv_layer where
  stride : ℤ
  kernel_size : ℤ
  kernels : List conv_kernel
  kernel_deltas : List conv_kernel
  activations_w : ℤ
  activations_h : ℤ
  activations_d : ℤ
deriving DecidableEq

/-- `convolutional_layer::convolutional_layer(number_of_kernels, kernel_size,
stride, …)`: hyperparameter validation, then `number_of_kernels` kernels and
kernel deltas, with the activation tensor initialised to shape (0,0,0). -/
def construct (number_of_kernels kernel_size stride : ℤ) :
    Except String conv_layer :=
  if number_of_kernels ≤ 0 then
    .error "number_of_kernels must be greater than 0"
  else if kernel_size ≤ 0 then
    .error "kernel_size must be greater than 0"
  else if stride ≤ 0 then
    .error "stride must be greater than 0"
  else if stride > kernel_size then
    .error "stride must be smaller or equal than the kernel_size"
  else
    .ok { stride := stride
          kernel_size := kernel_size
          kernels := List.replicate number_of_kernels.toNat ⟨kernel_size, 1⟩
          kernel_deltas := List.replicate number_of_kernels.toNat ⟨kernel_size, 1⟩
          activations_w := 0
          activations_h := 0
          activations_d := 0 }

/-- `convolutional_layer::set_input_format`: computes both output sides as
`(input_side − kernel_size) / (float)stride + 1`, fails when either is not a
whole number, otherwise sets every kernel's (and kernel delta's) depth to the
input depth and resizes the activations to
`((int)output_width, (int)output_height, kernels.size())`. -/
def set_input_format (l : conv_layer) (input_w input_h input_d : ℤ) :
    Except String conv_layer :=
  if ¬ (gpu_math.is_whole_number
          (((input_w : ℚ) - (l.kernel_size : ℚ)) / (l.stride : ℚ) + 1) = true ∧
        gpu_math.is_whole_number
          (((input_h : ℚ) - (l.kernel_size : ℚ)) / (l.stride : ℚ) + 1) = true) then
    .error "input format is not compatible with the kernel size and stride"
  else
    .ok { l with
          kernels := l.kernels.map (fun k => { k with depth := input_d })
          kernel_deltas := l.kernel_deltas.map (fun k => { k with depth := input_d })
          activations_w := (((input_w : ℚ) - (l.kernel_size : ℚ)) / (l.stride : ℚ) + 1).num
          activations_h := (((input_h : ℚ) - (l.kernel_size : ℚ)) / (l.stride : ℚ) + 1).num
          activations_d := (l.kernels.length : ℤ) }

end convolutional_layer

namespace neural_network

/-- Calls observable in `neural_network::learn`'s control flow. -/
inductive nn_event where
  | learn_once_ev (example_idx : Nat) (apply_changes : Bool)
  | apply_deltas_ev (training_data_count : Nat)
  | new_batch_ev

/-- The inner loop of one epoch of `neural_network::learn`: for each example
of the current batch, `learn_once(example, false)` followed immediately by
`apply_deltas(batch_size)` — both inside the per-example loop. -/
def epoch_trace (batch : List Nat) (batch_size : Nat) : List nn_event :=
  match batch with
  | [] => []
  | ex :: rest =>
      nn_event.learn_once_ev ex false ::
        nn_event.apply_deltas_ev batch_size :: epoch_trace rest batch_size

/-- Modelled from the spec: the external `batch_handler` (not under src/)
serves one batch per epoch, advanced by `calculate_new_batch` at the end of
each epoch; `batches` lists the batch it serves in each epoch.
`learn_trace batches batch_size` is then the call trace of
`neural_network::learn(…, batch_size, epochs)` with `epochs = batches.length`:
per epoch the inner per-example loop, then `calculate_new_batch`. -/
def learn_trace (batches : List (List Nat)) (batch_size : Nat) : List nn_event :=
  match batches with
  | [] => []
  | batch :: rest =>
      epoch_trace batch batch_size ++
        (nn_event.new_batch_ev :: learn_trace rest batch_size)

def is_apply_deltas_ev : nn_event → Bool
  | .apply_deltas_ev _ => true
  | _ => false

def is_new_batch_ev : nn_event → Bool
  | .new_batch_ev => true
  | _ => false

/-- Number of `apply_deltas` calls (parameter updates) in a trace. -/
def count_apply_deltas (t : List nn_event) : Nat :=
  (t.filter is_apply_deltas_ev).length

/-- Number of `calculate_new_batch` calls (batch-cursor advances) in a trace. -/
def count_new_batch (t : List nn_event) : Nat :=
  (t.filter is_new_batch_ev).length

/-- A matrix format (width, height, depth); `matrix::equal_format` compares
these componentwise. -/
structure fmt where
  w : Nat
  h : Nat
  d : Nat
deriving DecidableEq

/-- A layer as the network-building operations see it: its type (pooling or
not), its bound input format, and the non-owning link to the previous layer
(`set_previous_layer`), here an index. -/
structure build_layer where
  is_pooling : Bool
  input_format : Option fmt
  prev : Option Nat
deriving DecidableEq

/-- Building-time state of a `neural_network`: the once-settable input and
output formats with their flags, the `cost_derivative` buffer's format, the
layer chain, and the recorded parameter-layer indices. -/
structure nn_build where
  input_format_set : Bool
  input_format : fmt
  output_format_set : Bool
  output_format : fmt
  cost_derivative_format : fmt
  layers : List build_layer
  parameter_layer_indices : List Nat
deriving DecidableEq

/-- `neural_network::set_input_format`: throws when the flag is already set,
otherwise sets the flag and resizes the stored input format. -/
def set_input_format (s : nn_build) (given_input_format : fmt) :
    Except String nn_build :=
  if s.input_format_set = true then
    .error "Cannot set input format twice."
  else
    .ok { s with input_format_set := true, input_format := given_input_format }

/-- `neural_network::set_output_format`: throws when the flag is already set,
otherwise sets the flag and resizes the output format and the
`cost_derivative` buffer. -/
def set_output_format (s : nn_build) (given_output_format : fmt) :
    Except String nn_build :=
  if s.output_format_set = true then
    .error "Cannot set output format twice."
  else
    .ok { s with
          output_format_set := true
          output_format := given_output_format
          cost_derivative_format := given_output_format }

/-- `neural_network::add_layer`: records the new index as a parameter layer
unless the layer is pooling; binds the layer's input format to the network's
input format when it is the first layer, otherwise links it to the previous
layer; then appends it. -/
def add_layer (s : nn_build) (given_layer : build_layer) : nn_build :=
  let pidx :=
    if given_layer.is_pooling = false then
      s.parameter_layer_indices ++ [s.layers.length]
    else s.parameter_layer_indices
  let bound :=
    if s.layers.isEmpty then
      { given_layer with input_format := some s.input_format }
    else
      { given_layer with prev := some (s.layers.length - 1) }
  { s with layers := s.layers ++ [bound], parameter_layer_indices := pidx }

/-- `item_count` of a format: width · height · depth. -/
def fmt.items (f : fmt) : Nat := f.w * f.h * f.d

/-- One labeled training example (`nn_data`): a data tensor and a label
tensor, each with its format. -/
structure nn_data where
  data : Nat → ℚ
  data_format : fmt
  label : Nat → ℚ
  label_format : fmt

/-- Runtime state of one fully-connected layer in the network chain. -/
structure fc_layer_rt where
  act_fmt : fmt
  input_count : Nat
  weights : Nat → ℚ
  biases : Nat → ℚ
  weight_deltas : Nat → ℚ
  bias_deltas : Nat → ℚ
  error : Nat → ℚ
  activations : Nat → ℚ
  act_fn : ℚ → ℚ
  inverse : ℚ → ℚ
  deriv : ℚ → ℚ

def dummy_fc : fc_layer_rt :=
  ⟨⟨0, 0, 0⟩, 0, fun _ => 0, fun _ => 0, fun _ => 0, fun _ => 0, fun _ => 0,
    fun _ => 0, fun x => x, fun x => x, fun x => x⟩

/-- Writes the first `count` cells of a tensor buffer, leaving the rest. -/
def write_buf (count : Nat) (f old : Nat → ℚ) : Nat → ℚ :=
  fun i => if i < count then f i else old i

/-- `fully_connected_layer::forward_propagation`:
`dot_product_flat(weights, input, activations)`, then
`add_flat(activations, biases, activations)`, then
`apply_activation_function` in place — together
`activations[i] = act_fn(Σ_j weights[j,i]·input[j] + biases[i])` for every
item of the activation tensor. -/
def fc_layer_forward (l : fc_layer_rt) (input : Nat → ℚ) : fc_layer_rt :=
  { l with
    activations :=
      write_buf l.act_fmt.items
        (fun i => l.act_fn (gpu_math.host_dot_product l.weights input l.input_count i +
          l.biases i))
        l.activations }

/-- The layer-by-layer walk of `neural_network::forward_propagation`: each
layer computes its activations from the previous layer's activations (the
network input for the first layer). -/
def forward_layers (data : Nat → ℚ) : List fc_layer_rt → List fc_layer_rt
  | [] => []
  | l :: rest =>
      let l' := fc_layer_forward l data
      l' :: forward_layers l'.activations rest

/-- Runtime state of a network whose chain is fully-connected layers. -/
structure fc_net where
  input_format_set : Bool
  input_format : fmt
  output_format : fmt
  learning_rate : ℚ
  layers : List fc_layer_rt

/-- `neural_network::get_last_layer`, whose activations are the network
output (`output_p`). -/
def last_layer (net : fc_net) : fc_layer_rt :=
  net.layers.getD (net.layers.length - 1) dummy_fc

def output_of (net : fc_net) : Nat → ℚ := (last_layer net).activations

/-- `neural_network::forward_propagation`: `set_input` validates the input
pointer's format against the declared input format and that layers exist —
throwing before any mutation — then every layer's forward pass runs. A
thrown exception is the paired message; the paired state is the state at the
throw point. -/
def forward_propagation (net : fc_net) (data : Nat → ℚ) (data_format : fmt) :
    fc_net × Option String :=
  if ¬ (net.input_format_set = true ∧ data_format = net.input_format) then
    (net, some "Could not set Input. Input format is not set or does not match the input format.")
  else if net.layers.isEmpty = true then
    (net, some "Could not set Input. No layers have been added yet.")
  else
    ({ net with layers := forward_layers data net.layers }, none)

/-- Modelled from the spec: `layer::set_error_for_last_layer` (layer.cpp is
not under src/) "seeds the final layer's error from the label": the error
tensor receives the cost derivative, `activations − label` per item. -/
def set_error_last (net : fc_net) (label : Nat → ℚ) : fc_net :=
  { net with
    layers := net.layers.set (net.layers.length - 1)
      { last_layer net with
        error := write_buf (last_layer net).act_fmt.items
          (fun i => (last_layer net).activations i - label i)
          (last_layer net).error } }

/-- The layer-glue of one backward step: layer `i` runs
`fully_connected_layer::back_propagation` with its stored input (the
previous layer's activations, or the network input for layer 0) and with
`passing_error` pointing at the previous layer's error tensor (null for
layer 0); the updated error/delta buffers are written back. -/
def backprop_step (data : Nat → ℚ) (ls : List fc_layer_rt) (i : Nat) :
    List fc_layer_rt :=
  let l := ls.getD i dummy_fc
  let input := if i = 0 then data else (ls.getD (i - 1) dummy_fc).activations
  let prev_error := if i = 0 then (fun _ => 0) else (ls.getD (i - 1) dummy_fc).error
  let st := fully_connected_layer.back_propagation
    ⟨l.act_fmt.items, l.input_count, l.activations, l.weights, input,
      l.inverse, l.deriv, if i = 0 then false else true⟩
    ⟨l.error, l.bias_deltas, l.weight_deltas, prev_error⟩
  let ls1 := ls.set i
    { l with
      error := st.error
      bias_deltas := st.bias_deltas
      weight_deltas := st.weight_deltas }
  if i = 0 then ls1
  else ls1.set (i - 1) { ls1.getD (i - 1) dummy_fc with error := st.passing }

/-- The reverse-order backward walk of `learn_once`
(`for it = layers.rbegin(); …`). -/
def back_propagation_all (data : Nat → ℚ) (ls : List fc_layer_rt) :
    List fc_layer_rt :=
  loop (fun cur k => backprop_step data cur (ls.length - 1 - k)) ls ls.length

/-- `neural_network::apply_deltas`: every (parameter) layer applies its
accumulated deltas. -/
def net_apply_deltas (net : fc_net) (training_data_count : Nat) : fc_net :=
  { net with
    layers := net.layers.map (fun l =>
      let p := fully_connected_layer.apply_deltas l.act_fmt.items
        (l.input_count * l.act_fmt.items) training_data_count net.learning_rate
        ⟨l.biases, l.bias_deltas, l.weights, l.weight_deltas⟩
      { l with
        biases := p.biases
        bias_deltas := p.bias_deltas
        weights := p.weights
        weight_deltas := p.weight_deltas }) }

/-- `neural_network::learn_once`: validates the label's format against the
output format FIRST — a mismatch throws before anything runs, leaving every
layer unmodified — then forward propagation, error seeding on the last
layer, backward propagation over all layers in reverse index order, and an
immediate `apply_deltas(1)` only when `apply_changes`. -/
def learn_once (net : fc_net) (training_data : nn_data) (apply_changes : Bool) :
    fc_net × Option String :=
  if ¬ (training_data.label_format = net.output_format) then
    (net, some "The expected output does not have the correct format.")
  else
    match forward_propagation net training_data.data training_data.data_format with
    | (net1, some e) => (net1, some e)
    | (net1, none) =>
        let net2 := set_error_last net1 training_data.label
        let net3 := { net2 with
          layers := back_propagation_all training_data.data net2.layers }
        (if apply_changes then net_apply_deltas net3 1 else net3, none)

/-- `test_result` (accuracy, average cost; elapsed time is not modelled). -/
structure test_result where
  data_count : Nat
  accuracy : ℚ
  avg_cost : ℚ

/-- `neural_network::calculate_cost`: the output (the last layer's
activations; null when no layer exists) must match the expected format;
the cost is the sum of squared differences over the expected items. -/
def calculate_cost (net : fc_net) (expected : Nat → ℚ) (expected_format : fmt) :
    Except String ℚ :=
  if net.layers.isEmpty = true then
    .error "Output is nullptr."
  else if ¬ ((last_layer net).act_fmt = expected_format) then
    .error "Output format does not match expected output format."
  else
    .ok (csum (fun i =>
      ((last_layer net).activations i - expected i) *
        ((last_layer net).activations i - expected i)) expected_format.items)

/-- The per-example loop of `neural_network::test`: forward propagation,
`same_result` via the externally supplied interpreter, cost accumulation;
a thrown exception propagates out of `test`. -/
def test_loop (interp : (Nat → ℚ) → (Nat → ℚ) → Bool) :
    fc_net → List nn_data → Nat → ℚ → Except String (fc_net × Nat × ℚ)
  | net, [], correct_predictions, cost_sum => .ok (net, correct_predictions, cost_sum)
  | net, td :: rest, correct_predictions, cost_sum =>
      match forward_propagation net td.data td.data_format with
      | (_, some e) => .error e
      | (net1, none) =>
          let correct1 :=
            if interp (output_of net1) td.label then correct_predictions + 1
            else correct_predictions
          match calculate_cost net1 td.label td.label_format with
          | .error e => .error e
          | .ok c => test_loop interp net1 rest correct1 (cost_sum + c)

/-- `neural_network::test`: runs the loop, then reports
`data_count = test_data.size()`,
`accuracy = correct_predictions / data_count` and
`avg_cost = cost_sum / data_count` — dividing by `data_count` without any
emptiness check. -/
def test (net : fc_net) (test_data : List nn_data)
    (interp : (Nat → ℚ) → (Nat → ℚ) → Bool) :
    Except String (test_result × fc_net) :=
  match test_loop interp net test_data 0 0 with
  | .error e => .error e
  | .ok (net', correct_predictions, cost_sum) =>
      .ok (⟨test_data.length,
            (correct_predictions : ℚ) / ((test_data.length : Nat) : ℚ),
            cost_sum / ((test_data.length : Nat) : ℚ)⟩, net')

/-- Projection of a `test` outcome for concrete evaluation. -/
def result_of (e : Except String (test_result × fc_net)) : test_result :=
  match e with
  | .ok (r, _) => r
  | .error _ => ⟨0, 0, 0⟩

/-- Projection of a `test_loop` outcome: the accumulated correct-prediction
count and cost sum. -/
def loop_result (e : Except String (fc_net × Nat × ℚ)) : Nat × ℚ :=
  match e with
  | .ok (_, c, s) => (c, s)
  | .error _ => (0, 0)

/-- Well-formedness of a test run: the input format is bound, layers exist,
and every example's data and label formats match the network's input format
and the output layer's activation format. -/
def examples_ok (net : fc_net) (exs : List nn_data) : Prop :=
  net.input_format_set = true ∧ net.layers ≠ [] ∧
  ∀ td ∈ exs, td.data_format = net.input_format ∧
    td.label_format = (last_layer net).act_fmt

end neural_network

namespace mutation

/-- Trainable-parameter content of one layer as the mutation operators see
it: a fully-connected layer's flat weights and biases, a convolutional
layer's per-kernel flat weights and biases (all kernels share one format),
or a parameterless pooling layer. -/
inductive layer_variant where
  | fc (weight_count bias_count : Nat) (weights biases : Nat → ℚ)
  | conv (kernel_count weight_size bias_size : Nat)
      (kernel_weights kernel_biases : Nat → Nat → ℚ)
  | pooling

/-- The random draws a single `mutate` call consumes, threaded explicitly:
the parameter-layer pick, the `biased_coin_toss` outcome (`true` = weights),
the kernel pick (convolutional only), the element pick, and the
`random_float_incl(-range, range)` perturbation. -/
structure mutation_rand where
  layer_pick : Nat
  coin : Bool
  kernel_pick : Nat
  elem_pick : Nat
  delta : ℚ

/-- Modelled from the spec: `matrix::mutate` (matrix.cpp is not under src/):
"mutating exactly one randomly chosen element by a uniform perturbation". -/
def matrix_mutate (f : Nat → ℚ) (idx : Nat) (delta : ℚ) : Nat → ℚ :=
  upd f idx (f idx + delta)

/-- Pointwise update of a two-index buffer (kernel index, element index). -/
def upd2 (f : Nat → Nat → ℚ) (k idx : Nat) (v : ℚ) : Nat → Nat → ℚ :=
  fun a b => if a = k ∧ b = idx then v else f a b

/-- `fully_connected_layer::mutate` (weights-vs-biases coin toss, then one
element of the chosen matrix) and `convolutional_layer::mutate` (random
kernel, weights-vs-biases coin toss, then one element of that kernel's
chosen matrix); pooling layers have no mutation operator. -/
def layer_mutate (l : layer_variant) (r : mutation_rand) : layer_variant :=
  match l with
  | .fc wc bc w b =>
      if r.coin then .fc wc bc (matrix_mutate w r.elem_pick r.delta) b
      else .fc wc bc w (matrix_mutate b r.elem_pick r.delta)
  | .conv kc ws bs kw kb =>
      if r.coin then
        .conv kc ws bs
          (upd2 kw r.kernel_pick r.elem_pick (kw r.kernel_pick r.elem_pick + r.delta)) kb
      else
        .conv kc ws bs kw
          (upd2 kb r.kernel_pick r.elem_pick (kb r.kernel_pick r.elem_pick + r.delta))
  | .pooling => .pooling

def is_pooling : layer_variant → Bool
  | .pooling => true
  | _ => false

def dummy : layer_variant := .pooling

/-- The `parameter_layer_indices` vector `add_layer` accumulates: the indices
of the non-pooling layers. -/
def parameter_layer_indices (ls : List layer_variant) : List Nat :=
  (List.range ls.length).filter (fun i => is_pooling (ls.getD i dummy) = false)

/-- `neural_network::mutate(range)`: fails when no parameter layers exist,
otherwise picks one parameter-layer index and delegates to that layer's
mutation operator. -/
def nn_mutate (ls : List layer_variant) (r : mutation_rand) :
    Except String (List layer_variant) :=
  if parameter_layer_indices ls = [] then
    .error "Cannot mutate. No parameter layers have been added yet."
  else
    .ok (ls.set ((parameter_layer_indices ls).getD r.layer_pick 0)
      (layer_mutate (ls.getD ((parameter_layer_indices ls).getD r.layer_pick 0) dummy) r))

/-- Number of trainable scalars of a layer. -/
def param_count : layer_variant → Nat
  | .fc wc bc _ _ => wc + bc
  | .conv kc ws bs _ _ => kc * ws + kc * bs
  | .pooling => 0

/-- Flat view of a layer's trainable scalars: weights first, then biases. -/
def params : layer_variant → Nat → ℚ
  | .fc wc _ w b => fun p => if p < wc then w p else b (p - wc)
  | .conv kc ws bs kw kb => fun p =>
      if p < kc * ws then kw (p / ws) (p % ws)
      else kb ((p - kc * ws) / bs) ((p - kc * ws) % bs)
  | .pooling => fun _ => 0

/-- The random draws are admissible for layer `l` and mutation range
`range`: the perturbation lies in `[-range, range]` and the picked indices
are in bounds for the picked parameter group. -/
def rand_ok (l : layer_variant) (r : mutation_rand) (range : ℚ) : Prop :=
  (-range ≤ r.delta ∧ r.delta ≤ range) ∧
  match l with
  | .fc wc bc _ _ => if r.coin then r.elem_pick < wc else r.elem_pick < bc
  | .conv kc ws bs _ _ =>
      r.kernel_pick < kc ∧ (if r.coin then r.elem_pick < ws else r.elem_pick < bs)
  | .pooling => False

/-- Exactly one trainable scalar differs between `old` and `new`, by a
perturbation of magnitude at most `range`; all other scalars are identical. -/
def one_scalar_change (old new : layer_variant) (range : ℚ) : Prop :=
  param_count new = param_count old ∧
  ∃ p, p < param_count old ∧
    (∀ q, q ≠ p → params new q = params old q) ∧
    ∃ dv, -range ≤ dv ∧ dv ≤ range ∧ params new p = params old p + dv

/-- The parameter-layer index a `mutate` call selects. -/
def selected_idx (ls : List layer_variant) (r : mutation_rand) : Nat :=
  (parameter_layer_indices ls).getD r.layer_pick 0

/-- The layer list after `mutate`: only the selected layer is replaced. -/
def mutated (ls : List layer_variant) (r : mutation_rand) : List layer_variant :=
  ls.set (selected_idx ls r) (layer_mutate (ls.getD (selected_idx ls r) dummy) r)

end mutation

end CNN

namespace CNN

@[simp] theorem upd_same (f : Nat → ℚ) (i : Nat) (v : ℚ) : upd f i v i = v := by
  simp [upd]

theorem upd_other (f : Nat → ℚ) (i k : Nat) (v : ℚ) (h : k ≠ i) : upd f i v k = f k := by
  simp [upd, h]

@[simp] theorem loop_zero {σ : Type} (body : σ → Nat → σ) (s : σ) :
    loop body s 0 = s := rfl

@[simp] theorem loop_succ {σ : Type} (body : σ → Nat → σ) (s : σ) (n : Nat) :
    loop body s (n + 1) = body (loop body s n) n := rfl

@[simp] theorem csum_zero (f : Nat → ℚ) : csum f 0 = 0 := rfl

@[simp] theorem csum_succ (f : Nat → ℚ) (n : Nat) : csum f (n + 1) = csum f n + f n := rfl

theorem csum_congr (f g : Nat → ℚ) (n : Nat) (h : ∀ j, j < n → f j = g j) :
    csum f n = csum g n := by
  induction n with
  | zero => rfl
  | succ m ih =>
      simp only [csum_succ]
      rw [ih (fun j hj => h j (Nat.lt_succ_of_lt hj)), h m (Nat.lt_succ_self m)]

end CNN

namespace CNN.gpu_math

theorem size_le_threads (size : Nat) :
    size ≤ get_block_count size * THREADS_PER_BLOCK := by
  unfold get_block_count THREADS_PER_BLOCK
  have h1 := Nat.div_add_mod (size - 1) 1024
  have h2 : (size - 1) % 1024 < 1024 := Nat.mod_lt _ (by norm_num)
  omega

theorem gpu_launch_lt (size : Nat) (body old : Nat → ℚ) (i : Nat) (h : i < size) :
    gpu_launch size body old i = body i := by
  unfold gpu_launch
  exact if_pos ⟨Nat.lt_of_lt_of_le h (size_le_threads size), h⟩

theorem gpu_launch_ge (size : Nat) (body old : Nat → ℚ) (i : Nat) (h : ¬ i < size) :
    gpu_launch size body old i = old i := by
  unfold gpu_launch
  exact if_neg (fun hc => h hc.2)

theorem is_whole_number_iff_exists (q : ℚ) :
    is_whole_number q = true ↔ ∃ z : ℤ, q = (z : ℚ) := by
  unfold is_whole_number
  rw [decide_eq_true_eq, Rat.den_eq_one_iff]
  constructor
  · intro h
    exact ⟨q.num, h.symm⟩
  · rintro ⟨z, rfl⟩
    rw [Rat.num_intCast]

end CNN.gpu_math

namespace CNN.fully_connected_layer

theorem lt_succ_iff_of_ne {i m : Nat} (hm : i ≠ m) : i < m + 1 ↔ i < m := by
  constructor
  · intro h
    exact Nat.lt_of_le_of_ne (Nat.le_of_lt_succ h) hm
  · exact Nat.lt_succ_of_lt

theorem apply_deltas_bias_loop_bias_deltas (tc : Nat) (lr : ℚ) (p : params) (n i : Nat) :
    (loop (apply_deltas_bias_step tc lr) p n).bias_deltas i =
      if i < n then 0 else p.bias_deltas i := by
  induction n with
  | zero => simp
  | succ m ih =>
      simp only [loop_succ, apply_deltas_bias_step]
      by_cases hm : i = m
      · subst hm
        simp [upd_same, Nat.lt_succ_self]
      · rw [upd_other _ _ _ _ hm, ih, if_congr (lt_succ_iff_of_ne hm) rfl rfl]

theorem apply_deltas_bias_loop_biases (tc : Nat) (lr : ℚ) (p : params) (n i : Nat) :
    (loop (apply_deltas_bias_step tc lr) p n).biases i =
      if i < n then p.biases i - (p.bias_deltas i / (tc : ℚ)) * lr else p.biases i := by
  induction n with
  | zero => simp
  | succ m ih =>
      simp only [loop_succ, apply_deltas_bias_step]
      by_cases hm : i = m
      · subst hm
        have hnot : ¬ i < i := Nat.lt_irrefl i
        rw [upd_same, ih, if_neg hnot, if_pos (Nat.lt_succ_self i),
          apply_deltas_bias_loop_bias_deltas, if_neg hnot]
      · rw [upd_other _ _ _ _ hm, ih, if_congr (lt_succ_iff_of_ne hm) rfl rfl]

theorem apply_deltas_bias_loop_weights (tc : Nat) (lr : ℚ) (p : params) (n : Nat) :
    (loop (apply_deltas_bias_step tc lr) p n).weights = p.weights := by
  induction n with
  | zero => rfl
  | succ m ih => simp [loop_succ, apply_deltas_bias_step, ih]

theorem apply_deltas_bias_loop_weight_deltas (tc : Nat) (lr : ℚ) (p : params) (n : Nat) :
    (loop (apply_deltas_bias_step tc lr) p n).weight_deltas = p.weight_deltas := by
  induction n with
  | zero => rfl
  | succ m ih => simp [loop_succ, apply_deltas_bias_step, ih]

theorem apply_deltas_weight_loop_weight_deltas (tc : Nat) (lr : ℚ) (p : params) (n i : Nat) :
    (loop (apply_deltas_weight_step tc lr) p n).weight_deltas i =
      if i < n then 0 else p.weight_deltas i := by
  induction n with
  | zero => simp
  | succ m ih =>
      simp only [loop_succ, apply_deltas_weight_step]
      by_cases hm : i = m
      · subst hm
        simp [upd_same, Nat.lt_succ_self]
      · rw [upd_other _ _ _ _ hm, ih, if_congr (lt_succ_iff_of_ne hm) rfl rfl]

theorem apply_deltas_weight_loop_weights (tc : Nat) (lr : ℚ) (p : params) (n i : Nat) :
    (loop (apply_deltas_weight_step tc lr) p n).weights i =
      if i < n then p.weights i - (p.weight_deltas i / (tc : ℚ)) * lr else p.weights i := by
  induction n with
  | zero => simp
  | succ m ih =>
      simp only [loop_succ, apply_deltas_weight_step]
      by_cases hm : i = m
      · subst hm
        have hnot : ¬ i < i := Nat.lt_irrefl i
        rw [upd_same, ih, if_neg hnot, if_pos (Nat.lt_succ_self i),
          apply_deltas_weight_loop_weight_deltas, if_neg hnot]
      · rw [upd_other _ _ _ _ hm, ih, if_congr (lt_succ_iff_of_ne hm) rfl rfl]

theorem apply_deltas_weight_loop_biases (tc : Nat) (lr : ℚ) (p : params) (n : Nat) :
    (loop (apply_deltas_weight_step tc lr) p n).biases = p.biases := by
  induction n with
  | zero => rfl
  | succ m ih => simp [loop_succ, apply_deltas_weight_step, ih]

theorem apply_deltas_weight_loop_bias_deltas (tc : Nat) (lr : ℚ) (p : params) (n : Nat) :
    (loop (apply_deltas_weight_step tc lr) p n).bias_deltas = p.bias_deltas := by
  induction n with
  | zero => rfl
  | succ m ih => simp [loop_succ, apply_deltas_weight_step, ih]

theorem widx_inj {j j' i i' C : Nat} (hj : j < C) (hj' : j' < C)
    (h : widx j i C = widx j' i' C) : j = j' ∧ i = i' := by
  unfold widx at h
  have hmod : j = j' := by
    have h1 := congrArg (fun t => t % C) h
    simpa [Nat.add_mul_mod_self_right, Nat.mod_eq_of_lt hj, Nat.mod_eq_of_lt hj'] using h1
  subst hmod
  have hC : 0 < C := Nat.lt_of_le_of_lt (Nat.zero_le j) hj
  have h2 : i * C = i' * C := by omega
  exact ⟨rfl, Nat.eq_of_mul_eq_mul_right hC h2⟩

theorem widx_ne_of_ne_fst {j j' i C : Nat} (h : j ≠ j') : widx j i C ≠ widx j' i C := by
  unfold widx
  intro hcon
  exact h (Nat.add_right_cancel hcon)

theorem back_inner_error (c : back_ctx) (i : Nat) (ev d : ℚ)
    (st : back_state) (j : Nat) :
    (back_inner c i ev d st j).error = st.error := by
  unfold back_inner
  split <;> rfl

theorem back_inner_bias_deltas (c : back_ctx) (i : Nat) (ev d : ℚ)
    (st : back_state) (j : Nat) :
    (back_inner c i ev d st j).bias_deltas = st.bias_deltas := by
  unfold back_inner
  split <;> rfl

theorem back_inner_weight_deltas (c : back_ctx) (i : Nat) (ev d : ℚ)
    (st : back_state) (j : Nat) :
    (back_inner c i ev d st j).weight_deltas =
      upd st.weight_deltas (widx j i c.input_count)
        (st.weight_deltas (widx j i c.input_count) + ev * d * c.input j) := by
  unfold back_inner
  split <;> rfl

theorem back_inner_passing (c : back_ctx) (i : Nat) (ev d : ℚ)
    (st : back_state) (j : Nat) :
    (back_inner c i ev d st j).passing =
      if c.has_passing = true then
        upd st.passing j
          (st.passing j + ev * d * c.weights (widx j i c.input_count))
      else st.passing := by
  unfold back_inner
  split
  · rfl
  · rfl

theorem back_inner_loop_error (c : back_ctx) (i : Nat) (ev d : ℚ)
    (st : back_state) (n : Nat) :
    (loop (back_inner c i ev d) st n).error = st.error := by
  induction n with
  | zero => rfl
  | succ m ih => rw [loop_succ, back_inner_error, ih]

theorem back_inner_loop_bias_deltas (c : back_ctx) (i : Nat) (ev d : ℚ)
    (st : back_state) (n : Nat) :
    (loop (back_inner c i ev d) st n).bias_deltas = st.bias_deltas := by
  induction n with
  | zero => rfl
  | succ m ih => rw [loop_succ, back_inner_bias_deltas, ih]

theorem back_inner_loop_weight_miss (c : back_ctx) (i : Nat) (ev d : ℚ)
    (st : back_state) (n k : Nat)
    (hk : ∀ j, j < n → k ≠ widx j i c.input_count) :
    (loop (back_inner c i ev d) st n).weight_deltas k = st.weight_deltas k := by
  induction n with
  | zero => rfl
  | succ m ih =>
      rw [loop_succ, back_inner_weight_deltas,
        upd_other _ _ _ _ (hk m (Nat.lt_succ_self m)),
        ih (fun j hj => hk j (Nat.lt_succ_of_lt hj))]

theorem back_inner_loop_weight_hit (c : back_ctx) (i : Nat) (ev d : ℚ)
    (st : back_state) (n j : Nat) (hj : j < n) :
    (loop (back_inner c i ev d) st n).weight_deltas (widx j i c.input_count) =
      st.weight_deltas (widx j i c.input_count) + ev * d * c.input j := by
  induction n with
  | zero => exact absurd hj (Nat.not_lt_zero j)
  | succ m ih =>
      rw [loop_succ, back_inner_weight_deltas]
      by_cases hm : j = m
      · subst hm
        rw [upd_same,
          back_inner_loop_weight_miss c i ev d st j _
            (fun j' hj' => widx_ne_of_ne_fst (Nat.ne_of_gt hj'))]
      · rw [upd_other _ _ _ _ (widx_ne_of_ne_fst hm),
          ih (Nat.lt_of_le_of_ne (Nat.le_of_lt_succ hj) hm)]

theorem back_inner_loop_passing_false (c : back_ctx) (i : Nat) (ev d : ℚ)
    (st : back_state) (n : Nat) (hp : c.has_passing = false) :
    (loop (back_inner c i ev d) st n).passing = st.passing := by
  induction n with
  | zero => rfl
  | succ m ih =>
      rw [loop_succ, back_inner_passing, hp]
      simp only [Bool.false_eq_true, if_false]
      exact ih

theorem back_inner_loop_passing_true (c : back_ctx) (i : Nat) (ev d : ℚ)
    (st : back_state) (n j : Nat) (hp : c.has_passing = true) :
    (loop (back_inner c i ev d) st n).passing j =
      if j < n then st.passing j + ev * d * c.weights (widx j i c.input_count)
      else st.passing j := by
  induction n with
  | zero => simp
  | succ m ih =>
      rw [loop_succ, back_inner_passing, if_pos hp]
      by_cases hm : j = m
      · subst hm
        rw [upd_same, ih, if_neg (Nat.lt_irrefl j), if_pos (Nat.lt_succ_self j)]
      · rw [upd_other _ _ _ _ hm, ih, if_congr (lt_succ_iff_of_ne hm) rfl rfl]

theorem back_outer_error (c : back_ctx) (st : back_state) (n k : Nat) :
    (loop (back_neuron c) st n).error k = if k < n then 0 else st.error k := by
  induction n with
  | zero => simp
  | succ m ih =>
      simp only [loop_succ, back_neuron, back_inner_loop_error]
      by_cases hm : k = m
      · subst hm
        simp [upd_same, Nat.lt_succ_self]
      · rw [upd_other _ _ _ _ hm, ih, if_congr (lt_succ_iff_of_ne hm) rfl rfl]

theorem back_outer_bias (c : back_ctx) (st : back_state) (n k : Nat) :
    (loop (back_neuron c) st n).bias_deltas k =
      if k < n then st.bias_deltas k + st.error k * deriv_at c k
      else st.bias_deltas k := by
  induction n with
  | zero => simp
  | succ m ih =>
      simp only [loop_succ, back_neuron, back_inner_loop_bias_deltas]
      by_cases hm : k = m
      · subst hm
        have hnot : ¬ k < k := Nat.lt_irrefl k
        rw [upd_same, ih, if_neg hnot, back_outer_error, if_neg hnot,
          if_pos (Nat.lt_succ_self k)]
      · rw [upd_other _ _ _ _ hm, ih, if_congr (lt_succ_iff_of_ne hm) rfl rfl]

theorem back_outer_weight (c : back_ctx) (st : back_state) (n i j : Nat)
    (hj : j < c.input_count) :
    (loop (back_neuron c) st n).weight_deltas (widx j i c.input_count) =
      if i < n then
        st.weight_deltas (widx j i c.input_count) +
          st.error i * deriv_at c i * c.input j
      else st.weight_deltas (widx j i c.input_count) := by
  induction n with
  | zero => simp
  | succ m ih =>
      simp only [loop_succ, back_neuron]
      by_cases hm : i = m
      · subst hm
        have hnot : ¬ i < i := Nat.lt_irrefl i
        rw [back_inner_loop_weight_hit c i _ _ _ c.input_count j hj]
        show (loop (back_neuron c) st i).weight_deltas (widx j i c.input_count) +
          (loop (back_neuron c) st i).error i * deriv_at c i * c.input j = _
        rw [ih, if_neg hnot, back_outer_error, if_neg hnot, if_pos (Nat.lt_succ_self i)]
      · have hmiss : ∀ j', j' < c.input_count →
            widx j i c.input_count ≠ widx j' m c.input_count := by
          intro j' hj' hcon
          exact hm (widx_inj hj hj' hcon).2
        rw [back_inner_loop_weight_miss c m _ _ _ c.input_count _ hmiss]
        show (loop (back_neuron c) st m).weight_deltas (widx j i c.input_count) = _
        rw [ih, if_congr (lt_succ_iff_of_ne hm) rfl rfl]

theorem back_outer_passing_false (c : back_ctx) (st : back_state) (n : Nat)
    (hp : c.has_passing = false) :
    (loop (back_neuron c) st n).passing = st.passing := by
  induction n with
  | zero => rfl
  | succ m ih =>
      simp only [loop_succ, back_neuron]
      rw [back_inner_loop_passing_false _ _ _ _ _ _ hp]
      exact ih

theorem back_outer_passing_true (c : back_ctx) (st : back_state) (n j : Nat)
    (hp : c.has_passing = true) :
    (loop (back_neuron c) st n).passing j =
      if j < c.input_count then
        st.passing j +
          csum (fun k => st.error k * deriv_at c k * c.weights (widx j k c.input_count)) n
      else st.passing j := by
  induction n with
  | zero => simp
  | succ m ih =>
      simp only [loop_succ, back_neuron]
      rw [back_inner_loop_passing_true _ _ _ _ _ _ _ hp]
      by_cases hj : j < c.input_count
      · rw [if_pos hj, if_pos hj]
        show (loop (back_neuron c) st m).passing j +
          (loop (back_neuron c) st m).error m * deriv_at c m *
            c.weights (widx j m c.input_count) = _
        rw [ih, if_pos hj, back_outer_error, if_neg (Nat.lt_irrefl m), csum_succ,
          add_assoc]
      · rw [if_neg hj]
        show (loop (back_neuron c) st m).passing j = _
        rw [ih]
        simp only [if_neg hj]

end CNN.fully_connected_layer

namespace CNN

open fully_connected_layer in
/-- C2: in every fully-connected backward pass, each neuron `i`'s error slot is
read and then reset to zero; the bias delta at `i` is incremented by
`error[i] · derivative` where the derivative is obtained by applying the
activation's inverse to the stored activation and then the derivative
function; each weight delta `[j,i]` is incremented by
`error[i] · derivative · input[j]`; and when a predecessor exists, its error
`[j]` is incremented (accumulated over all neurons, never overwritten) by
`error[i] · derivative · weight[j,i]`. -/
theorem C2_fc_back_propagation_accumulates (c : back_ctx) (st : back_state)
    (i j : Nat) (hi : i < c.neuron_count) (hj : j < c.input_count) :
    (back_propagation c st).error i = 0 ∧
    (back_propagation c st).bias_deltas i =
      st.bias_deltas i + st.error i * deriv_at c i ∧
    (back_propagation c st).weight_deltas (widx j i c.input_count) =
      st.weight_deltas (widx j i c.input_count) +
        st.error i * deriv_at c i * c.input j ∧
    (c.has_passing = true →
      (back_propagation c st).passing j =
        st.passing j +
          csum (fun k => st.error k * deriv_at c k * c.weights (widx j k c.input_count))
            c.neuron_count) := by
  refine ⟨?_, ?_, ?_, ?_⟩
  · rw [back_propagation, back_outer_error, if_pos hi]
  · rw [back_propagation, back_outer_bias, if_pos hi]
  · rw [back_propagation, back_outer_weight c st c.neuron_count i j hj, if_pos hi]
  · intro hp
    rw [back_propagation, back_outer_passing_true _ _ _ _ hp, if_pos hj]

open fully_connected_layer in
/-- Witness for C2 at a concrete one-neuron, one-input layer. -/
theorem C2_witness :
    (back_propagation
        ⟨1, 1, fun _ => 2, fun _ => 3, fun _ => 5, fun x => x, fun x => x, true⟩
        ⟨fun _ => 7, fun _ => 0, fun _ => 0, fun _ => 0⟩).error 0 = 0 ∧
    (back_propagation
        ⟨1, 1, fun _ => 2, fun _ => 3, fun _ => 5, fun x => x, fun x => x, true⟩
        ⟨fun _ => 7, fun _ => 0, fun _ => 0, fun _ => 0⟩).bias_deltas 0 = 14 ∧
    (back_propagation
        ⟨1, 1, fun _ => 2, fun _ => 3, fun _ => 5, fun x => x, fun x => x, true⟩
        ⟨fun _ => 7, fun _ => 0, fun _ => 0, fun _ => 0⟩).weight_deltas 0 = 70 ∧
    (back_propagation
        ⟨1, 1, fun _ => 2, fun _ => 3, fun _ => 5, fun x => x, fun x => x, true⟩
        ⟨fun _ => 7, fun _ => 0, fun _ => 0, fun _ => 0⟩).passing 0 = 42 := by
  have h := C2_fc_back_propagation_accumulates
    ⟨1, 1, fun _ => 2, fun _ => 3, fun _ => 5, fun x => x, fun x => x, true⟩
    ⟨fun _ => 7, fun _ => 0, fun _ => 0, fun _ => 0⟩
    0 0 (by decide) (by decide)
  obtain ⟨h1, h2, h3, h4⟩ := h
  refine ⟨h1, ?_, ?_, ?_⟩
  · rw [h2]; norm_num [deriv_at]
  · have : widx 0 0 1 = 0 := rfl
    rw [this] at h3
    rw [h3]; norm_num [deriv_at]
  · rw [h4 rfl]; norm_num [csum, deriv_at, widx]

open fully_connected_layer in
/-- C3: for every fully-connected layer, batch size `N ≥ 1` and learning rate η,
after `apply_deltas(N)` every bias and every weight equals its pre-update value
minus `η · (accumulated_delta / N)`, and every delta accumulator reads back as 0. -/
theorem C3_fc_apply_deltas_averages_and_clears
    (bias_count weight_count N : Nat) (eta : ℚ) (p : params)
    (hN : 1 ≤ N) :
    (∀ i, i < bias_count →
      (apply_deltas bias_count weight_count N eta p).biases i =
        p.biases i - eta * (p.bias_deltas i / (N : ℚ)) ∧
      (apply_deltas bias_count weight_count N eta p).bias_deltas i = 0) ∧
    (∀ i, i < weight_count →
      (apply_deltas bias_count weight_count N eta p).weights i =
        p.weights i - eta * (p.weight_deltas i / (N : ℚ)) ∧
      (apply_deltas bias_count weight_count N eta p).weight_deltas i = 0) := by
  constructor
  · intro i hi
    constructor
    · rw [apply_deltas, apply_deltas_weight_loop_biases,
        apply_deltas_bias_loop_biases, if_pos hi, mul_comm]
    · rw [apply_deltas, apply_deltas_weight_loop_bias_deltas,
        apply_deltas_bias_loop_bias_deltas, if_pos hi]
  · intro i hi
    constructor
    · rw [apply_deltas, apply_deltas_weight_loop_weights, if_pos hi,
        apply_deltas_bias_loop_weights, apply_deltas_bias_loop_weight_deltas, mul_comm]
    · rw [apply_deltas, apply_deltas_weight_loop_weight_deltas, if_pos hi]

/-- Witness for C3 at a concrete layer: one bias, one weight, batch size 2. -/
theorem C3_witness :
    (fully_connected_layer.apply_deltas 1 1 2 (1/2)
        ⟨fun _ => 10, fun _ => 4, fun _ => 20, fun _ => 8⟩).biases 0 = 9 ∧
    (fully_connected_layer.apply_deltas 1 1 2 (1/2)
        ⟨fun _ => 10, fun _ => 4, fun _ => 20, fun _ => 8⟩).weights 0 = 18 ∧
    (fully_connected_layer.apply_deltas 1 1 2 (1/2)
        ⟨fun _ => 10, fun _ => 4, fun _ => 20, fun _ => 8⟩).bias_deltas 0 = 0 := by
  have h := C3_fc_apply_deltas_averages_and_clears 1 1 2 (1/2)
    ⟨fun _ => 10, fun _ => 4, fun _ => 20, fun _ => 8⟩ (by decide)
  obtain ⟨hb, hw⟩ := h
  have hb0 := hb 0 (by decide)
  have hw0 := hw 0 (by decide)
  refine ⟨?_, ?_, hb0.2⟩
  · rw [hb0.1]; norm_num
  · rw [hw0.1]; norm_num

end CNN

namespace CNN

open gpu_math in
/-- C7: `gpu_dot_product` succeeds exactly when the three buffers are
non-empty and `weights.item_count = input.item_count · activations.item_count`
(failing otherwise before anything is dispatched, so the output buffer is not
mutated), and on success every output cell `i` holds
`Σ_j weights[j,i] · input[j]` while cells outside the output index space keep
their old contents. -/
theorem C7_gpu_dot_product_contract (w inp act : gpu_memory) :
    ((∃ r, gpu_dot_product w inp act = .ok r) ↔
      (w.item_count ≠ 0 ∧ inp.item_count ≠ 0 ∧ act.item_count ≠ 0 ∧
        w.item_count = inp.item_count * act.item_count)) ∧
    (∀ r, gpu_dot_product w inp act = .ok r →
      r.item_count = act.item_count ∧
      (∀ i, i < act.item_count →
        r.data i =
          csum (fun j => w.data (j + i * inp.item_count) * inp.data j)
            inp.item_count) ∧
      (∀ i, ¬ i < act.item_count → r.data i = act.data i)) := by
  by_cases h1 : w.item_count = 0 ∨ inp.item_count = 0 ∨ act.item_count = 0
  · constructor
    · constructor
      · rintro ⟨r, hr⟩
        rw [gpu_dot_product, if_pos h1] at hr
        cases hr
      · rintro ⟨hw, hi, ha, _⟩
        rcases h1 with h | h | h
        · exact absurd h hw
        · exact absurd h hi
        · exact absurd h ha
    · intro r hr
      rw [gpu_dot_product, if_pos h1] at hr
      cases hr
  · by_cases h2 : act.item_count * inp.item_count ≠ w.item_count
    · constructor
      · constructor
        · rintro ⟨r, hr⟩
          rw [gpu_dot_product, if_neg h1, if_pos h2] at hr
          cases hr
        · rintro ⟨_, _, _, heq⟩
          exact absurd (by rw [heq, mul_comm]) h2
      · intro r hr
        rw [gpu_dot_product, if_neg h1, if_pos h2] at hr
        cases hr
    · push_neg at h1
      have heq : act.item_count * inp.item_count = w.item_count := not_not.mp h2
      constructor
      · constructor
        · intro _
          exact ⟨h1.1, h1.2.1, h1.2.2, by rw [← heq, mul_comm]⟩
        · intro _
          refine ⟨⟨gpu_launch act.item_count
            (gpu_dot_product_kernel w.data inp.data inp.item_count act.item_count)
            act.data, act.item_count⟩, ?_⟩
          rw [gpu_dot_product, if_neg (by push_neg; exact h1), if_neg h2]
      · intro r hr
        rw [gpu_dot_product, if_neg (by push_neg; exact h1), if_neg h2] at hr
        cases hr
        refine ⟨rfl, ?_, ?_⟩
        · intro i hi
          show gpu_launch act.item_count _ act.data i = _
          rw [gpu_launch_lt _ _ _ _ hi]
          unfold gpu_dot_product_kernel
          exact csum_congr _ _ _ (fun j hj => by simp [get_idx])
        · intro i hi
          show gpu_launch act.item_count _ act.data i = act.data i
          rw [gpu_launch_ge _ _ _ _ hi]

open gpu_math in
/-- Witness for C7: a 2-input, 1-output dot product; the precondition holds
(2 = 2·1, all non-empty), the call succeeds, and output cell 0 is
`1·2 + 2·3 = 8`. -/
theorem C7_witness :
    gpu_dot_product ⟨fun j => (j : ℚ) + 1, 2⟩ ⟨fun j => (j : ℚ) + 2, 2⟩
        ⟨fun _ => 0, 1⟩ =
      .ok ⟨gpu_launch 1 (gpu_dot_product_kernel (fun j => (j : ℚ) + 1)
        (fun j => (j : ℚ) + 2) 2 1) (fun _ => 0), 1⟩ ∧
    gpu_launch 1 (gpu_dot_product_kernel (fun j => (j : ℚ) + 1)
        (fun j => (j : ℚ) + 2) 2 1) (fun _ => 0) 0 = 8 := by
  have h := C7_gpu_dot_product_contract ⟨fun j => (j : ℚ) + 1, 2⟩
    ⟨fun j => (j : ℚ) + 2, 2⟩ ⟨fun _ => 0, 1⟩
  have hok : gpu_dot_product ⟨fun j => (j : ℚ) + 1, 2⟩ ⟨fun j => (j : ℚ) + 2, 2⟩
      ⟨fun _ => 0, 1⟩ =
      .ok ⟨gpu_launch 1 (gpu_dot_product_kernel (fun j => (j : ℚ) + 1)
        (fun j => (j : ℚ) + 2) 2 1) (fun _ => 0), 1⟩ := by
    rw [gpu_dot_product]
    norm_num
  refine ⟨hok, ?_⟩
  have h2 := (h.2 _ hok).2.1 0 (by norm_num)
  exact h2.trans (by norm_num [csum])

end CNN

namespace CNN

open gpu_math in
/-- C4 (amended): for the four implemented kernel primitives — elementwise
add, dot product, sigmoid, ReLU — whenever the device entry point accepts its
input, each computed output cell equals the sequential host routine's value
over the same flat layout. (The fifth primitive, valid cross-correlation, is
excluded: its device kernel body is an unimplemented placeholder.) -/
theorem C4_host_device_equivalence (e : ℚ → ℚ) (w inp act a b r m : gpu_memory) :
    (∀ res, gpu_dot_product w inp act = .ok res → ∀ i, i < act.item_count →
      res.data i = host_dot_product w.data inp.data inp.item_count i) ∧
    (∀ res, gpu_add a b r = .ok res → ∀ i, i < a.item_count →
      res.data i = host_add a.data b.data i) ∧
    (∀ res, gpu_sigmoid e m = .ok res → ∀ i, i < m.item_count →
      res.data i = host_sigmoid e (m.data i)) ∧
    (∀ res, gpu_relu m = .ok res → ∀ i, i < m.item_count →
      res.data i = host_relu (m.data i)) := by
  refine ⟨?_, ?_, ?_, ?_⟩
  · intro res hres i hi
    rw [gpu_dot_product] at hres
    split at hres
    · cases hres
    · split at hres
      · cases hres
      · cases hres
        show gpu_launch act.item_count _ act.data i = _
        rw [gpu_launch_lt _ _ _ _ hi]
        unfold gpu_dot_product_kernel host_dot_product
        exact csum_congr _ _ _ (fun j hj => by simp [get_idx])
  · intro res hres i hi
    rw [gpu_add] at hres
    split at hres
    · cases hres
    · cases hres
      show gpu_launch a.item_count _ r.data i = _
      rw [gpu_launch_lt _ _ _ _ hi]
      rfl
  · intro res hres i hi
    rw [gpu_sigmoid] at hres
    split at hres
    · cases hres
    · cases hres
      show gpu_launch m.item_count _ m.data i = _
      rw [gpu_launch_lt _ _ _ _ hi]
      rfl
  · intro res hres i hi
    rw [gpu_relu] at hres
    split at hres
    · cases hres
    · cases hres
      show gpu_launch m.item_count _ m.data i = _
      rw [gpu_launch_lt _ _ _ _ hi]
      unfold gpu_relu_kernel host_relu
      rcases lt_or_le 0 (m.data i) with h | h
      · rw [if_pos h, max_eq_right h.le]
      · rw [if_neg (not_lt.mpr h), max_eq_left h]

open gpu_math in
/-- Counterexample to C4 as stated: for the valid cross-correlation primitive,
the device routine accepts a 1×1×1 input with one 1×1 kernel (stride 1) but —
its kernel body being empty in the source — returns the activation buffer
unchanged (cell 0 stays 0), while the sequential host routine computes 1.
The two routines are not numerically equivalent on this valid input. -/
theorem C4_counterexample :
    gpu_valid_cross_correlation ⟨fun _ => 1, 1⟩ [⟨fun _ => 1, 1⟩] ⟨fun _ => 0, 1⟩
        1 1 1 1 1 1 = .ok ⟨fun _ => 0, 1⟩ ∧
    (⟨fun _ => 0, 1⟩ : gpu_memory).data 0 = 0 ∧
    host_valid_cross_correlation (fun _ => 1) (fun _ => 1) 1 1 1 1 0 0 = 1 ∧
    (0 : ℚ) ≠ 1 := by
  refine ⟨?_, rfl, ?_, by norm_num⟩
  · rw [gpu_valid_cross_correlation]
    norm_num [is_whole_number]
  · unfold host_valid_cross_correlation
    norm_num [csum, get_idx]

open gpu_math in
/-- Witness for the amended C4 at concrete buffers: dot product of
weights (1,2) with input (2,3) agreeing with the host value 8; add of 1+2
agreeing with the host value 3; ReLU of −5 agreeing with the host value 0. -/
theorem C4_witness :
    gpu_dot_product ⟨fun j => (j : ℚ) + 1, 2⟩ ⟨fun j => (j : ℚ) + 2, 2⟩
        ⟨fun _ => 0, 1⟩ =
      .ok ⟨gpu_launch 1 (gpu_dot_product_kernel (fun j => (j : ℚ) + 1)
        (fun j => (j : ℚ) + 2) 2 1) (fun _ => 0), 1⟩ ∧
    gpu_launch 1 (gpu_dot_product_kernel (fun j => (j : ℚ) + 1)
        (fun j => (j : ℚ) + 2) 2 1) (fun _ => 0) 0 =
      host_dot_product (fun j => (j : ℚ) + 1) (fun j => (j : ℚ) + 2) 2 0 ∧
    host_dot_product (fun j => (j : ℚ) + 1) (fun j => (j : ℚ) + 2) 2 0 = 8 ∧
    gpu_add ⟨fun _ => 1, 1⟩ ⟨fun _ => 2, 1⟩ ⟨fun _ => 0, 1⟩ =
      .ok ⟨gpu_launch 1 (gpu_add_matrices_kernel (fun _ => 1) (fun _ => 2))
        (fun _ => 0), 1⟩ ∧
    gpu_launch 1 (gpu_add_matrices_kernel (fun _ => 1) (fun _ => 2))
        (fun _ => 0) 0 = host_add (fun _ => 1) (fun _ => 2) 0 ∧
    gpu_relu ⟨fun _ => -5, 1⟩ =
      .ok ⟨gpu_launch 1 (gpu_relu_kernel (fun _ => -5)) (fun _ => -5), 1⟩ ∧
    gpu_launch 1 (gpu_relu_kernel (fun _ => -5)) (fun _ => -5) 0 =
      host_relu (-5) := by
  have h := C4_host_device_equivalence (fun x => x)
    ⟨fun j => (j : ℚ) + 1, 2⟩ ⟨fun j => (j : ℚ) + 2, 2⟩ ⟨fun _ => 0, 1⟩
    ⟨fun _ => 1, 1⟩ ⟨fun _ => 2, 1⟩ ⟨fun _ => 0, 1⟩ ⟨fun _ => -5, 1⟩
  obtain ⟨hdot, hadd, hsig, hrelu⟩ := h
  have hok1 : gpu_dot_product ⟨fun j => (j : ℚ) + 1, 2⟩ ⟨fun j => (j : ℚ) + 2, 2⟩
      ⟨fun _ => 0, 1⟩ =
      .ok ⟨gpu_launch 1 (gpu_dot_product_kernel (fun j => (j : ℚ) + 1)
        (fun j => (j : ℚ) + 2) 2 1) (fun _ => 0), 1⟩ := by
    rw [gpu_dot_product]
    norm_num
  have hok2 : gpu_add ⟨fun _ => 1, 1⟩ ⟨fun _ => 2, 1⟩ ⟨fun _ => 0, 1⟩ =
      .ok ⟨gpu_launch 1 (gpu_add_matrices_kernel (fun _ => 1) (fun _ => 2))
        (fun _ => 0), 1⟩ := by
    rw [gpu_add]
    norm_num
  have hok3 : gpu_relu ⟨fun _ => -5, 1⟩ =
      .ok ⟨gpu_launch 1 (gpu_relu_kernel (fun _ => -5)) (fun _ => -5), 1⟩ := by
    rw [gpu_relu]
    norm_num
  refine ⟨hok1, hdot _ hok1 0 (by norm_num), ?_, hok2,
    hadd _ hok2 0 (by norm_num), hok3, hrelu _ hok3 0 (by norm_num)⟩
  norm_num [host_dot_product, csum]

end CNN

namespace CNN

open convolutional_layer gpu_math in
/-- C6: a convolutional layer's construction fails exactly when
kernel count ≤ 0, kernel size ≤ 0, stride ≤ 0 or stride > kernel size;
binding an input format with side `n` succeeds exactly when
`(n − kernel_size)/stride + 1` is a whole number, in which case every
kernel's depth is recomputed to the input depth and the activation tensor's
sides both equal that value. -/
theorem C6_conv_layer_validation (c k s : ℤ) (l : conv_layer) (n d : ℤ) :
    ((∃ l0, construct c k s = .ok l0) ↔ (0 < c ∧ 0 < k ∧ 0 < s ∧ s ≤ k)) ∧
    ((∃ l', set_input_format l n n d = .ok l') ↔
      is_whole_number (((n : ℚ) - (l.kernel_size : ℚ)) / (l.stride : ℚ) + 1) = true) ∧
    (∀ l', set_input_format l n n d = .ok l' →
      (∀ kk ∈ l'.kernels, kk.depth = d) ∧
      (∀ kk ∈ l'.kernel_deltas, kk.depth = d) ∧
      (l'.activations_w : ℚ) = ((n : ℚ) - (l.kernel_size : ℚ)) / (l.stride : ℚ) + 1 ∧
      l'.activations_h = l'.activations_w) := by
  refine ⟨?_, ?_, ?_⟩
  · constructor
    · rintro ⟨l0, h⟩
      rw [construct] at h
      split at h
      · cases h
      · split at h
        · cases h
        · split at h
          · cases h
          · split at h
            · cases h
            · rename_i h1 h2 h3 h4
              exact ⟨not_le.mp h1, not_le.mp h2, not_le.mp h3, not_lt.mp h4⟩
    · rintro ⟨hc, hk, hs, hsk⟩
      have hx : construct c k s =
          .ok { stride := s
                kernel_size := k
                kernels := List.replicate c.toNat ⟨k, 1⟩
                kernel_deltas := List.replicate c.toNat ⟨k, 1⟩
                activations_w := 0
                activations_h := 0
                activations_d := 0 } := by
        rw [construct, if_neg (not_le.mpr hc), if_neg (not_le.mpr hk),
          if_neg (not_le.mpr hs), if_neg (not_lt.mpr hsk)]
      exact ⟨_, hx⟩
  · constructor
    · rintro ⟨l', h⟩
      rw [set_input_format] at h
      split at h
      · cases h
      · rename_i hcond
        exact (not_not.mp hcond).1
    · intro hw
      have hx : set_input_format l n n d =
          .ok { l with
                kernels := l.kernels.map (fun kk => { kk with depth := d })
                kernel_deltas := l.kernel_deltas.map (fun kk => { kk with depth := d })
                activations_w := (((n : ℚ) - (l.kernel_size : ℚ)) / (l.stride : ℚ) + 1).num
                activations_h := (((n : ℚ) - (l.kernel_size : ℚ)) / (l.stride : ℚ) + 1).num
                activations_d := (l.kernels.length : ℤ) } := by
        rw [set_input_format, if_neg (not_not.mpr ⟨hw, hw⟩)]
      exact ⟨_, hx⟩
  · intro l' h
    rw [set_input_format] at h
    split at h
    · cases h
    · rename_i hcond
      have hw := (not_not.mp hcond).1
      cases h
      refine ⟨?_, ?_, ?_, rfl⟩
      · intro kk hk
        rw [List.mem_map] at hk
        obtain ⟨a, _, ha⟩ := hk
        rw [← ha]
      · intro kk hk
        rw [List.mem_map] at hk
        obtain ⟨a, _, ha⟩ := hk
        rw [← ha]
      · show ((((n : ℚ) - (l.kernel_size : ℚ)) / (l.stride : ℚ) + 1).num : ℚ) = _
        rw [is_whole_number] at hw
        have hden : (((n : ℚ) - (l.kernel_size : ℚ)) / (l.stride : ℚ) + 1).den = 1 :=
          of_decide_eq_true hw
        conv_rhs => rw [← Rat.num_div_den (((n : ℚ) - (l.kernel_size : ℚ)) / (l.stride : ℚ) + 1)]
        rw [hden]
        norm_num

open convolutional_layer gpu_math in
/-- Witness for C6: constructing with kernel count 1, kernel size 2, stride 2
succeeds; binding input side 4 yields activation sides 2 with kernel depths
recomputed to 3; the output-side value for input side 5 is 2.5 — not whole. -/
theorem C6_witness :
    construct 1 2 2 = .ok ⟨2, 2, [⟨2, 1⟩], [⟨2, 1⟩], 0, 0, 0⟩ ∧
    set_input_format ⟨2, 2, [⟨2, 1⟩], [⟨2, 1⟩], 0, 0, 0⟩ 4 4 3 =
      .ok ⟨2, 2, [⟨2, 3⟩], [⟨2, 3⟩], 2, 2, 1⟩ ∧
    ((2 : ℤ) : ℚ) = (((4 : ℤ) : ℚ) - ((2 : ℤ) : ℚ)) / ((2 : ℤ) : ℚ) + 1 ∧
    set_input_format ⟨2, 2, [⟨2, 1⟩], [⟨2, 1⟩], 0, 0, 0⟩ 5 5 3 =
      .error "input format is not compatible with the kernel size and stride" := by
  have h4 := C6_conv_layer_validation 1 2 2 ⟨2, 2, [⟨2, 1⟩], [⟨2, 1⟩], 0, 0, 0⟩ 4 3
  have hcons : construct 1 2 2 = .ok ⟨2, 2, [⟨2, 1⟩], [⟨2, 1⟩], 0, 0, 0⟩ := by
    rw [construct]
    norm_num
  have hw2 : is_whole_number (2 : ℚ) = true := rfl
  have hset : set_input_format ⟨2, 2, [⟨2, 1⟩], [⟨2, 1⟩], 0, 0, 0⟩ 4 4 3 =
      .ok ⟨2, 2, [⟨2, 3⟩], [⟨2, 3⟩], 2, 2, 1⟩ := by
    rw [set_input_format]
    dsimp only
    rw [show (((4 : ℤ) : ℚ) - ((2 : ℤ) : ℚ)) / ((2 : ℤ) : ℚ) + 1 = 2 from by norm_num]
    rw [if_neg (not_not.mpr ⟨hw2, hw2⟩)]
    rfl
  have hwhole : is_whole_number ((((5 : ℤ) : ℚ) - ((2 : ℤ) : ℚ)) / ((2 : ℤ) : ℚ) + 1) =
      false := by
    rw [show (((5 : ℤ) : ℚ) - ((2 : ℤ) : ℚ)) / ((2 : ℤ) : ℚ) + 1 = 5 / 2 from by norm_num]
    rcases Bool.eq_false_or_eq_true (is_whole_number ((5 : ℚ) / 2)) with h | h
    · exfalso
      rw [is_whole_number_iff_exists] at h
      obtain ⟨z, hz⟩ := h
      have h5 : (5 : ℚ) = (z : ℚ) * 2 := (div_eq_iff (by norm_num)).mp hz
      have h5z : (5 : ℤ) = z * 2 := by exact_mod_cast h5
      omega
    · exact h
  have hfail : set_input_format ⟨2, 2, [⟨2, 1⟩], [⟨2, 1⟩], 0, 0, 0⟩ 5 5 3 =
      .error "input format is not compatible with the kernel size and stride" := by
    rw [set_input_format]
    dsimp only
    rw [if_pos]
    intro hand
    rw [hwhole] at hand
    exact absurd hand.1 (by decide)
  refine ⟨hcons, hset, ?_, hfail⟩
  exact (h4.2.2 _ hset).2.2.1

end CNN

namespace CNN.neural_network

theorem count_apply_deltas_append (s t : List nn_event) :
    count_apply_deltas (s ++ t) = count_apply_deltas s + count_apply_deltas t := by
  simp [count_apply_deltas, List.filter_append]

theorem count_new_batch_append (s t : List nn_event) :
    count_new_batch (s ++ t) = count_new_batch s + count_new_batch t := by
  simp [count_new_batch, List.filter_append]

theorem epoch_trace_count (b : List Nat) (B : Nat) :
    count_apply_deltas (epoch_trace b B) = b.length := by
  induction b with
  | nil => rfl
  | cons x r ih =>
      simp only [epoch_trace, count_apply_deltas, List.filter_cons] at ih ⊢
      simp only [is_apply_deltas_ev, List.length_cons]
      simpa using ih

theorem epoch_trace_new_batch (b : List Nat) (B : Nat) :
    count_new_batch (epoch_trace b B) = 0 := by
  induction b with
  | nil => rfl
  | cons x r ih =>
      simp only [epoch_trace, count_new_batch, List.filter_cons] at ih ⊢
      simpa [is_new_batch_ev] using ih

theorem epoch_trace_mem (b : List Nat) (B : Nat) (e : nn_event)
    (h : e ∈ epoch_trace b B) :
    (∃ i, e = nn_event.learn_once_ev i false) ∨ e = nn_event.apply_deltas_ev B := by
  induction b with
  | nil => cases h
  | cons x r ih =>
      simp only [epoch_trace, List.mem_cons] at h
      rcases h with h | h | h
      · exact Or.inl ⟨x, h⟩
      · exact Or.inr h
      · exact ih h

theorem learn_trace_mem (bs : List (List Nat)) (B : Nat) (e : nn_event)
    (h : e ∈ learn_trace bs B) :
    (∃ i, e = nn_event.learn_once_ev i false) ∨ e = nn_event.apply_deltas_ev B ∨
      e = nn_event.new_batch_ev := by
  induction bs with
  | nil => cases h
  | cons b rest ih =>
      simp only [learn_trace, List.mem_append, List.mem_cons] at h
      rcases h with h | h | h
      · rcases epoch_trace_mem b B e h with h' | h'
        · exact Or.inl h'
        · exact Or.inr (Or.inl h')
      · exact Or.inr (Or.inr h)
      · exact ih h

end CNN.neural_network

namespace CNN

open neural_network in
/-- Counterexample to C1 as stated: with batch size B = 2 and one epoch whose
batch holds the two examples 0 and 1, `learn` performs two `apply_deltas`
calls — one immediately after each `learn_once` inside the per-example loop —
not one parameter update per batch. -/
theorem C1_counterexample :
    count_apply_deltas (learn_trace [[0, 1]] 2) = 2 ∧ (2 : Nat) ≠ 1 := by
  constructor
  · rfl
  · decide

open neural_network in
/-- C1 (amended): for every training set, batch size B ≥ 1 and epoch count
E ≥ 1, `learn` calls `learn_once` per example with `apply_changes = false`
(never applying deltas inside `learn_once`), and calls
`apply_deltas(batch_size)` once per example — immediately after that
example's `learn_once`, averaging the accumulated deltas over B — so the
number of parameter updates equals the total number of examples processed,
not the number of batches; the batch cursor advances once per epoch. -/
theorem C1_learn_applies_deltas_per_example (batches : List (List Nat)) (B : Nat)
    (hB : 1 ≤ B) (hE : 1 ≤ batches.length) :
    count_apply_deltas (learn_trace batches B) = (batches.map List.length).sum ∧
    (∀ i ac, nn_event.learn_once_ev i ac ∈ learn_trace batches B → ac = false) ∧
    (∀ n, nn_event.apply_deltas_ev n ∈ learn_trace batches B → n = B) ∧
    count_new_batch (learn_trace batches B) = batches.length := by
  clear hE
  refine ⟨?_, ?_, ?_, ?_⟩
  · induction batches with
    | nil => rfl
    | cons b rest ih =>
        simp only [learn_trace, count_apply_deltas_append, List.map_cons, List.sum_cons]
        have hcons : count_apply_deltas (nn_event.new_batch_ev :: learn_trace rest B) =
            count_apply_deltas (learn_trace rest B) := by
          simp [count_apply_deltas, List.filter_cons, is_apply_deltas_ev]
        rw [hcons, epoch_trace_count, ih]
  · intro i ac h
    rcases learn_trace_mem batches B _ h with ⟨i', h'⟩ | h' | h'
    · cases h'
      rfl
    · cases h'
    · cases h'
  · intro n h
    rcases learn_trace_mem batches B _ h with ⟨i', h'⟩ | h' | h'
    · cases h'
    · cases h'
      rfl
    · cases h'
  · induction batches with
    | nil => rfl
    | cons b rest ih =>
        simp only [learn_trace, count_new_batch_append, List.length_cons]
        have hcons : count_new_batch (nn_event.new_batch_ev :: learn_trace rest B) =
            count_new_batch (learn_trace rest B) + 1 := by
          simp [count_new_batch, List.filter_cons, is_new_batch_ev, Nat.add_comm]
        rw [hcons, epoch_trace_new_batch, ih]
        omega

open neural_network in
/-- Witness for the amended C1: two epochs with batches {0,1} and {2} at
B = 2 yield three parameter updates (one per example) and two batch-cursor
advances. -/
theorem C1_witness :
    count_apply_deltas (learn_trace [[0, 1], [2]] 2) = 3 ∧
    count_new_batch (learn_trace [[0, 1], [2]] 2) = 2 := by
  have h := C1_learn_applies_deltas_per_example [[0, 1], [2]] 2 (by decide) (by decide)
  exact ⟨h.1.trans (by rfl), h.2.2.2⟩

end CNN

namespace CNN

open neural_network in
/-- C9: the network's input and output formats can each be set at most once —
a second `set_input_format` or `set_output_format` call fails — and when the
input format has been set and no layer has been added yet, `add_layer` binds
the first layer's input format to the network's declared input format. -/
theorem C9_formats_once_and_first_layer_binding (s : nn_build) (f : fmt)
    (l : build_layer) :
    (s.input_format_set = true →
      set_input_format s f = .error "Cannot set input format twice.") ∧
    (s.output_format_set = true →
      set_output_format s f = .error "Cannot set output format twice.") ∧
    (s.input_format_set = true → s.layers = [] →
      (add_layer s l).layers = [{ l with input_format := some s.input_format }]) := by
  refine ⟨?_, ?_, ?_⟩
  · intro h
    rw [set_input_format, if_pos h]
  · intro h
    rw [set_output_format, if_pos h]
  · intro _ hempty
    rw [add_layer]
    simp only [hempty, List.isEmpty_nil, if_pos, List.nil_append]

open neural_network in
/-- Witness for C9: a concrete build — fresh network, input format set to
(2,2,1), output format set to (1,1,1); second calls to either setter fail,
and the first added layer comes out bound to (2,2,1). -/
theorem C9_witness :
    set_input_format ⟨false, ⟨0, 0, 0⟩, false, ⟨0, 0, 0⟩, ⟨0, 0, 0⟩, [], []⟩ ⟨2, 2, 1⟩ =
      .ok ⟨true, ⟨2, 2, 1⟩, false, ⟨0, 0, 0⟩, ⟨0, 0, 0⟩, [], []⟩ ∧
    set_input_format ⟨true, ⟨2, 2, 1⟩, false, ⟨0, 0, 0⟩, ⟨0, 0, 0⟩, [], []⟩ ⟨3, 3, 1⟩ =
      .error "Cannot set input format twice." ∧
    set_output_format ⟨true, ⟨2, 2, 1⟩, true, ⟨1, 1, 1⟩, ⟨1, 1, 1⟩, [], []⟩ ⟨1, 1, 1⟩ =
      .error "Cannot set output format twice." ∧
    (add_layer ⟨true, ⟨2, 2, 1⟩, false, ⟨0, 0, 0⟩, ⟨0, 0, 0⟩, [], []⟩
        ⟨false, none, none⟩).layers = [⟨false, some ⟨2, 2, 1⟩, none⟩] := by
  have h := C9_formats_once_and_first_layer_binding
    ⟨true, ⟨2, 2, 1⟩, false, ⟨0, 0, 0⟩, ⟨0, 0, 0⟩, [], []⟩ ⟨3, 3, 1⟩ ⟨false, none, none⟩
  have h2 := C9_formats_once_and_first_layer_binding
    ⟨true, ⟨2, 2, 1⟩, true, ⟨1, 1, 1⟩, ⟨1, 1, 1⟩, [], []⟩ ⟨1, 1, 1⟩ ⟨false, none, none⟩
  refine ⟨by rw [set_input_format]; rfl, h.1 rfl, h2.2.1 rfl, ?_⟩
  exact h.2.2 rfl rfl

end CNN

namespace CNN.mutation

theorem list_getD_set_ne {α : Type} (ls : List α) (i j : Nat) (a d : α) (h : j ≠ i) :
    (ls.set i a).getD j d = ls.getD j d := by
  induction ls generalizing i j with
  | nil => rfl
  | cons x t ih =>
      cases i with
      | zero =>
          cases j with
          | zero => exact absurd rfl h
          | succ jj => rfl
      | succ ii =>
          cases j with
          | zero => rfl
          | succ jj => exact ih ii jj (fun he => h (congrArg Nat.succ he))

theorem list_getD_set_self {α : Type} (ls : List α) (i : Nat) (a d : α)
    (h : i < ls.length) : (ls.set i a).getD i d = a := by
  induction ls generalizing i with
  | nil => cases h
  | cons x t ih =>
      cases i with
      | zero => rfl
      | succ ii => exact ih ii (Nat.lt_of_succ_lt_succ h)

theorem list_getD_mem {α : Type} (ls : List α) (n : Nat) (d : α)
    (h : n < ls.length) : ls.getD n d ∈ ls := by
  induction ls generalizing n with
  | nil => cases h
  | cons x t ih =>
      cases n with
      | zero => exact List.mem_cons_self x t
      | succ nn => exact List.mem_cons_of_mem x (ih nn (Nat.lt_of_succ_lt_succ h))

theorem mem_parameter_layer_indices_lt (ls : List layer_variant) (x : Nat)
    (hx : x ∈ parameter_layer_indices ls) : x < ls.length := by
  unfold parameter_layer_indices at hx
  exact List.mem_range.mp (List.mem_filter.mp hx).1

theorem layer_mutate_one_scalar (l : layer_variant) (r : mutation_rand) (range : ℚ)
    (h : rand_ok l r range) : one_scalar_change l (layer_mutate l r) range := by
  obtain ⟨⟨hd1, hd2⟩, hidx⟩ := h
  cases l with
  | pooling => exact hidx.elim
  | fc wc bc w b =>
      cases hc : r.coin with
      | true =>
          replace hidx : r.elem_pick < wc := by simpa [hc] using hidx
          have hm : layer_mutate (.fc wc bc w b) r =
              .fc wc bc (matrix_mutate w r.elem_pick r.delta) b := by
            simp [layer_mutate, hc]
          rw [hm]
          refine ⟨rfl, r.elem_pick, Nat.lt_of_lt_of_le hidx (Nat.le_add_right wc bc),
            ?_, r.delta, hd1, hd2, ?_⟩
          · intro q hq
            simp only [params]
            by_cases hql : q < wc
            · rw [if_pos hql, if_pos hql, matrix_mutate, upd_other _ _ _ _ hq]
            · rw [if_neg hql, if_neg hql]
          · simp only [params, if_pos hidx, matrix_mutate, upd_same]
      | false =>
          replace hidx : r.elem_pick < bc := by simpa [hc] using hidx
          have hm : layer_mutate (.fc wc bc w b) r =
              .fc wc bc w (matrix_mutate b r.elem_pick r.delta) := by
            simp [layer_mutate, hc]
          rw [hm]
          refine ⟨rfl, wc + r.elem_pick, Nat.add_lt_add_left hidx wc,
            ?_, r.delta, hd1, hd2, ?_⟩
          · intro q hq
            simp only [params]
            by_cases hql : q < wc
            · rw [if_pos hql, if_pos hql]
            · rw [if_neg hql, if_neg hql, matrix_mutate,
                upd_other _ _ _ _ (by omega)]
          · have hnot : ¬ wc + r.elem_pick < wc := by omega
            have hsub : wc + r.elem_pick - wc = r.elem_pick := by omega
            simp only [params, if_neg hnot, hsub, matrix_mutate, upd_same]
  | conv kc ws bs kw kb =>
      obtain ⟨hk, hcoin⟩ := hidx
      cases hc : r.coin with
      | true =>
          replace hcoin : r.elem_pick < ws := by simpa [hc] using hcoin
          have hws : 0 < ws := Nat.lt_of_le_of_lt (Nat.zero_le _) hcoin
          have hm : layer_mutate (.conv kc ws bs kw kb) r =
              .conv kc ws bs
                (upd2 kw r.kernel_pick r.elem_pick
                  (kw r.kernel_pick r.elem_pick + r.delta)) kb := by
            simp [layer_mutate, hc]
          rw [hm]
          have hpw : ws * r.kernel_pick + r.elem_pick < kc * ws := by
            have h1 : ws * r.kernel_pick + r.elem_pick < ws * (r.kernel_pick + 1) := by
              rw [Nat.mul_add, Nat.mul_one]
              omega
            have h2 : ws * (r.kernel_pick + 1) ≤ ws * kc :=
              Nat.mul_le_mul (Nat.le_refl ws) (Nat.succ_le_of_lt hk)
            calc ws * r.kernel_pick + r.elem_pick < ws * (r.kernel_pick + 1) := h1
              _ ≤ ws * kc := h2
              _ = kc * ws := Nat.mul_comm ws kc
          have hdiv : (ws * r.kernel_pick + r.elem_pick) / ws = r.kernel_pick := by
            rw [Nat.mul_add_div hws, Nat.div_eq_of_lt hcoin, Nat.add_zero]
          have hmod : (ws * r.kernel_pick + r.elem_pick) % ws = r.elem_pick := by
            rw [Nat.mul_add_mod, Nat.mod_eq_of_lt hcoin]
          refine ⟨rfl, ws * r.kernel_pick + r.elem_pick,
            Nat.lt_of_lt_of_le hpw (Nat.le_add_right _ _),
            ?_, r.delta, hd1, hd2, ?_⟩
          · intro q hq
            simp only [params]
            by_cases hql : q < kc * ws
            · rw [if_pos hql, if_pos hql, upd2]
              rw [if_neg]
              rintro ⟨h1, h2⟩
              have hqd := Nat.div_add_mod q ws
              rw [h1, h2] at hqd
              exact hq hqd.symm
            · rw [if_neg hql, if_neg hql]
          · simp only [params, if_pos hpw, hdiv, hmod, upd2]
            simp
      | false =>
          replace hcoin : r.elem_pick < bs := by simpa [hc] using hcoin
          have hbs : 0 < bs := Nat.lt_of_le_of_lt (Nat.zero_le _) hcoin
          have hm : layer_mutate (.conv kc ws bs kw kb) r =
              .conv kc ws bs kw
                (upd2 kb r.kernel_pick r.elem_pick
                  (kb r.kernel_pick r.elem_pick + r.delta)) := by
            simp [layer_mutate, hc]
          rw [hm]
          have hpb : bs * r.kernel_pick + r.elem_pick < kc * bs := by
            have h1 : bs * r.kernel_pick + r.elem_pick < bs * (r.kernel_pick + 1) := by
              rw [Nat.mul_add, Nat.mul_one]
              omega
            have h2 : bs * (r.kernel_pick + 1) ≤ bs * kc :=
              Nat.mul_le_mul (Nat.le_refl bs) (Nat.succ_le_of_lt hk)
            calc bs * r.kernel_pick + r.elem_pick < bs * (r.kernel_pick + 1) := h1
              _ ≤ bs * kc := h2
              _ = kc * bs := Nat.mul_comm bs kc
          have hdiv : (bs * r.kernel_pick + r.elem_pick) / bs = r.kernel_pick := by
            rw [Nat.mul_add_div hbs, Nat.div_eq_of_lt hcoin, Nat.add_zero]
          have hmod : (bs * r.kernel_pick + r.elem_pick) % bs = r.elem_pick := by
            rw [Nat.mul_add_mod, Nat.mod_eq_of_lt hcoin]
          have hnotw : ¬ kc * ws + (bs * r.kernel_pick + r.elem_pick) < kc * ws := by
            omega
          have hsub : kc * ws + (bs * r.kernel_pick + r.elem_pick) - kc * ws =
              bs * r.kernel_pick + r.elem_pick := by
            omega
          refine ⟨rfl, kc * ws + (bs * r.kernel_pick + r.elem_pick),
            Nat.add_lt_add_left hpb _, ?_, r.delta, hd1, hd2, ?_⟩
          · intro q hq
            simp only [params]
            by_cases hql : q < kc * ws
            · rw [if_pos hql, if_pos hql]
            · rw [if_neg hql, if_neg hql, upd2]
              rw [if_neg]
              rintro ⟨h1, h2⟩
              have hqd := Nat.div_add_mod (q - kc * ws) bs
              rw [h1, h2] at hqd
              exact hq (by omega)
          · simp only [params, if_neg hnotw, hsub, hdiv, hmod, upd2]
            simp

end CNN.mutation

namespace CNN

open mutation in
/-- C5: on every network with at least one parameter layer, a single
`mutate(range)` call (with admissible random draws) succeeds, replaces
exactly the selected parameter layer, leaves every other layer — hence every
other trainable parameter — bit-identical, and within the selected layer
changes exactly one trainable scalar (one weight or one bias), by a
perturbation of magnitude at most `range`. -/
theorem C5_mutate_changes_one_scalar (ls : List layer_variant) (r : mutation_rand)
    (range : ℚ)
    (hr : r.layer_pick < (parameter_layer_indices ls).length)
    (hok : rand_ok (ls.getD (selected_idx ls r) dummy) r range) :
    nn_mutate ls r = .ok (mutated ls r) ∧
    (∀ j, j ≠ selected_idx ls r → (mutated ls r).getD j dummy = ls.getD j dummy) ∧
    one_scalar_change (ls.getD (selected_idx ls r) dummy)
      ((mutated ls r).getD (selected_idx ls r) dummy) range := by
  have hne : parameter_layer_indices ls ≠ [] := by
    intro he
    rw [he] at hr
    exact absurd hr (by simp)
  have hmem : selected_idx ls r ∈ parameter_layer_indices ls :=
    list_getD_mem _ _ _ hr
  have hlt : selected_idx ls r < ls.length :=
    mem_parameter_layer_indices_lt _ _ hmem
  refine ⟨?_, ?_, ?_⟩
  · rw [nn_mutate, if_neg hne]
    rfl
  · intro j hj
    exact list_getD_set_ne _ _ _ _ _ hj
  · rw [mutated, list_getD_set_self _ _ _ _ hlt]
    exact layer_mutate_one_scalar _ _ _ hok

open mutation in
/-- Witness for C5: a one-layer network holding a 1-weight, 1-bias
fully-connected layer; the coin picks the weights, element 0 gets +1/2,
the bias is untouched, and exactly one scalar changed. -/
theorem C5_witness :
    nn_mutate [layer_variant.fc 1 1 (fun _ => 0) (fun _ => 0)] ⟨0, true, 0, 0, 1/2⟩ =
      .ok [layer_variant.fc 1 1 (matrix_mutate (fun _ => 0) 0 (1/2)) (fun _ => 0)] ∧
    params (layer_variant.fc 1 1 (matrix_mutate (fun _ => 0) 0 (1/2)) (fun _ => 0)) 0 =
      1/2 ∧
    params (layer_variant.fc 1 1 (matrix_mutate (fun _ => 0) 0 (1/2)) (fun _ => 0)) 1 =
      0 ∧
    one_scalar_change (layer_variant.fc 1 1 (fun _ => 0) (fun _ => 0))
      (layer_variant.fc 1 1 (matrix_mutate (fun _ => 0) 0 (1/2)) (fun _ => 0)) 1 := by
  have h := C5_mutate_changes_one_scalar
    [layer_variant.fc 1 1 (fun _ => 0) (fun _ => 0)] ⟨0, true, 0, 0, 1/2⟩ 1
    (by show (0 : Nat) < 1
        decide)
    (by refine ⟨⟨by norm_num, by norm_num⟩, ?_⟩
        show (0 : Nat) < 1
        decide)
  obtain ⟨hok, hframe, hone⟩ := h
  have hsel : selected_idx [layer_variant.fc 1 1 (fun _ => 0) (fun _ => 0)]
      ⟨0, true, 0, 0, 1/2⟩ = 0 := rfl
  have hmut : mutated [layer_variant.fc 1 1 (fun _ => 0) (fun _ => 0)]
      ⟨0, true, 0, 0, 1/2⟩ =
      [layer_variant.fc 1 1 (matrix_mutate (fun _ => 0) 0 (1/2)) (fun _ => 0)] := rfl
  refine ⟨by rw [hok, hmut], ?_, ?_, ?_⟩
  · simp [params, matrix_mutate, upd]
  · simp [params, matrix_mutate, upd]
  · have hres := hone
    rw [hsel, hmut] at hres
    exact hres

end CNN

namespace CNN.neural_network

theorem isEmpty_false_of_ne_nil {α : Type} (l : List α) (h : l ≠ []) :
    l.isEmpty = false := by
  cases l with
  | nil => exact absurd rfl h
  | cons x t => rfl

theorem forward_layers_length (d : Nat → ℚ) (ls : List fc_layer_rt) :
    (forward_layers d ls).length = ls.length := by
  induction ls generalizing d with
  | nil => rfl
  | cons l rest ih => simp [forward_layers, ih]

theorem forward_layers_getD_act_fmt (d : Nat → ℚ) (ls : List fc_layer_rt) (i : Nat) :
    ((forward_layers d ls).getD i dummy_fc).act_fmt = (ls.getD i dummy_fc).act_fmt := by
  induction ls generalizing d i with
  | nil => rfl
  | cons l rest ih =>
      cases i with
      | zero => rfl
      | succ j => exact ih _ j

theorem last_layer_forward (net : fc_net) (d : Nat → ℚ) :
    (last_layer { net with layers := forward_layers d net.layers }).act_fmt =
      (last_layer net).act_fmt := by
  unfold last_layer
  show ((forward_layers d net.layers).getD
    ((forward_layers d net.layers).length - 1) dummy_fc).act_fmt = _
  rw [forward_layers_length]
  exact forward_layers_getD_act_fmt d net.layers _

theorem forward_propagation_ok (net : fc_net) (td : nn_data)
    (hset : net.input_format_set = true) (hdf : td.data_format = net.input_format)
    (hne : net.layers ≠ []) :
    forward_propagation net td.data td.data_format =
      ({ net with layers := forward_layers td.data net.layers }, none) := by
  rw [forward_propagation, if_neg (not_not_intro ⟨hset, hdf⟩), if_neg]
  rw [isEmpty_false_of_ne_nil _ hne]
  exact Bool.false_ne_true

theorem calculate_cost_ok (net : fc_net) (expected : Nat → ℚ) (expected_format : fmt)
    (hne : net.layers ≠ []) (hfmt : (last_layer net).act_fmt = expected_format) :
    calculate_cost net expected expected_format =
      .ok (csum (fun i =>
        ((last_layer net).activations i - expected i) *
          ((last_layer net).activations i - expected i)) expected_format.items) := by
  rw [calculate_cost, if_neg, if_neg (not_not_intro hfmt)]
  rw [isEmpty_false_of_ne_nil _ hne]
  exact Bool.false_ne_true

theorem test_loop_ok (interp : (Nat → ℚ) → (Nat → ℚ) → Bool) (exs : List nn_data) :
    ∀ (net : fc_net) (c0 : Nat) (s0 : ℚ),
      net.input_format_set = true → net.layers ≠ [] →
      (∀ td ∈ exs, td.data_format = net.input_format ∧
        td.label_format = (last_layer net).act_fmt) →
      ∃ net' c s, test_loop interp net exs c0 s0 = .ok (net', c, s) := by
  induction exs with
  | nil =>
      intro net c0 s0 _ _ _
      exact ⟨net, c0, s0, rfl⟩
  | cons td rest ih =>
      intro net c0 s0 hset hne hall
      obtain ⟨hdf, hlf⟩ := hall td (List.mem_cons_self td rest)
      have hfw := forward_propagation_ok net td hset hdf hne
      have hne1 : (forward_layers td.data net.layers) ≠ [] := by
        intro he
        apply hne
        have hlen := congrArg List.length he
        rw [forward_layers_length] at hlen
        exact List.length_eq_zero.mp hlen
      have hfmt1 : (last_layer { net with layers := forward_layers td.data net.layers }).act_fmt =
          td.label_format :=
        (last_layer_forward net td.data).trans hlf.symm
      have hcost := calculate_cost_ok { net with layers := forward_layers td.data net.layers }
        td.label td.label_format hne1 hfmt1
      obtain ⟨net', c, s, hrest⟩ := ih { net with layers := forward_layers td.data net.layers }
        (if interp (output_of { net with layers := forward_layers td.data net.layers })
            td.label then c0 + 1 else c0)
        (s0 + csum (fun i =>
          ((last_layer { net with layers := forward_layers td.data net.layers }).activations i -
            td.label i) *
          ((last_layer { net with layers := forward_layers td.data net.layers }).activations i -
            td.label i)) td.label_format.items)
        hset hne1
        (fun td' htd' => by
          obtain ⟨h1, h2⟩ := hall td' (List.mem_cons_of_mem td htd')
          exact ⟨h1, by rw [h2, ← last_layer_forward net td.data]⟩)
      refine ⟨net', c, s, ?_⟩
      show (match forward_propagation net td.data td.data_format with
        | (_, some e) => Except.error e
        | (net1, none) =>
            match calculate_cost net1 td.label td.label_format with
            | .error e => Except.error e
            | .ok cv => test_loop interp net1 rest
                (if interp (output_of net1) td.label then c0 + 1 else c0)
                (s0 + cv)) = Except.ok (net', c, s)
      rw [hfw]
      show (match calculate_cost { net with layers := forward_layers td.data net.layers }
          td.label td.label_format with
        | .error e => Except.error e
        | .ok cv => test_loop interp { net with layers := forward_layers td.data net.layers }
            rest
            (if interp (output_of { net with layers := forward_layers td.data net.layers })
                td.label then c0 + 1 else c0)
            (s0 + cv)) = Except.ok (net', c, s)
      rw [hcost]
      exact hrest

end CNN.neural_network

namespace CNN

open neural_network in
/-- C8 (amended): `learn_once` validates the label's format against the
network's output format BEFORE running forward propagation; when the label's
format does not match the output format, the call fails immediately and
every layer is left unmodified (no activation, weight, bias, or delta
accumulator changes — the returned state is the input state). -/
theorem C8_learn_once_validates_before_forward (net : fc_net) (td : nn_data)
    (apply_changes : Bool) (h : td.label_format ≠ net.output_format) :
    learn_once net td apply_changes =
      (net, some "The expected output does not have the correct format.") := by
  rw [learn_once, if_pos h]

open neural_network in
/-- Counterexample to C8 as stated: the claim has `learn_once` run forward
propagation and only then validate the label. On a concrete one-layer
network (activations initialised to 5) and an example whose label format
mismatches, `learn_once` returns the UNCHANGED network with the error — yet
forward propagation on that same input succeeds and changes the output
activation from 5 to 0, so the state after a forward pass differs from the
returned state: forward propagation cannot have run before the validation. -/
theorem C8_counterexample :
    learn_once
      ⟨true, ⟨1, 1, 1⟩, ⟨1, 1, 1⟩, 1,
        [⟨⟨1, 1, 1⟩, 1, fun _ => 0, fun _ => 0, fun _ => 0, fun _ => 0, fun _ => 0,
          fun _ => 5, fun x => x, fun x => x, fun x => x⟩]⟩
      ⟨fun _ => 1, ⟨1, 1, 1⟩, fun _ => 0, ⟨2, 1, 1⟩⟩ false =
      (⟨true, ⟨1, 1, 1⟩, ⟨1, 1, 1⟩, 1,
        [⟨⟨1, 1, 1⟩, 1, fun _ => 0, fun _ => 0, fun _ => 0, fun _ => 0, fun _ => 0,
          fun _ => 5, fun x => x, fun x => x, fun x => x⟩]⟩,
       some "The expected output does not have the correct format.") ∧
    (forward_propagation
      ⟨true, ⟨1, 1, 1⟩, ⟨1, 1, 1⟩, 1,
        [⟨⟨1, 1, 1⟩, 1, fun _ => 0, fun _ => 0, fun _ => 0, fun _ => 0, fun _ => 0,
          fun _ => 5, fun x => x, fun x => x, fun x => x⟩]⟩
      (fun _ => 1) ⟨1, 1, 1⟩).2 = none ∧
    output_of (forward_propagation
      ⟨true, ⟨1, 1, 1⟩, ⟨1, 1, 1⟩, 1,
        [⟨⟨1, 1, 1⟩, 1, fun _ => 0, fun _ => 0, fun _ => 0, fun _ => 0, fun _ => 0,
          fun _ => 5, fun x => x, fun x => x, fun x => x⟩]⟩
      (fun _ => 1) ⟨1, 1, 1⟩).1 0 = 0 ∧
    output_of
      ⟨true, ⟨1, 1, 1⟩, ⟨1, 1, 1⟩, 1,
        [⟨⟨1, 1, 1⟩, 1, fun _ => 0, fun _ => 0, fun _ => 0, fun _ => 0, fun _ => 0,
          fun _ => 5, fun x => x, fun x => x, fun x => x⟩]⟩ 0 = 5 ∧
    (forward_propagation
      ⟨true, ⟨1, 1, 1⟩, ⟨1, 1, 1⟩, 1,
        [⟨⟨1, 1, 1⟩, 1, fun _ => 0, fun _ => 0, fun _ => 0, fun _ => 0, fun _ => 0,
          fun _ => 5, fun x => x, fun x => x, fun x => x⟩]⟩
      (fun _ => 1) ⟨1, 1, 1⟩).1 ≠
      ⟨true, ⟨1, 1, 1⟩, ⟨1, 1, 1⟩, 1,
        [⟨⟨1, 1, 1⟩, 1, fun _ => 0, fun _ => 0, fun _ => 0, fun _ => 0, fun _ => 0,
          fun _ => 5, fun x => x, fun x => x, fun x => x⟩]⟩ := by
  have hfw : forward_propagation
      ⟨true, ⟨1, 1, 1⟩, ⟨1, 1, 1⟩, 1,
        [⟨⟨1, 1, 1⟩, 1, fun _ => 0, fun _ => 0, fun _ => 0, fun _ => 0, fun _ => 0,
          fun _ => 5, fun x => x, fun x => x, fun x => x⟩]⟩
      (fun _ => 1) ⟨1, 1, 1⟩ =
      (⟨true, ⟨1, 1, 1⟩, ⟨1, 1, 1⟩, 1,
        forward_layers (fun _ => 1)
          [⟨⟨1, 1, 1⟩, 1, fun _ => 0, fun _ => 0, fun _ => 0, fun _ => 0, fun _ => 0,
            fun _ => 5, fun x => x, fun x => x, fun x => x⟩]⟩, none) := by
    rw [forward_propagation, if_neg (by decide), if_neg (by decide)]
  have hout : output_of (forward_propagation
      ⟨true, ⟨1, 1, 1⟩, ⟨1, 1, 1⟩, 1,
        [⟨⟨1, 1, 1⟩, 1, fun _ => 0, fun _ => 0, fun _ => 0, fun _ => 0, fun _ => 0,
          fun _ => 5, fun x => x, fun x => x, fun x => x⟩]⟩
      (fun _ => 1) ⟨1, 1, 1⟩).1 0 = 0 := by
    rw [hfw]
    simp [output_of, last_layer, forward_layers, fc_layer_forward, write_buf,
      gpu_math.host_dot_product, fmt.items, csum]
  refine ⟨by rw [learn_once, if_pos (by decide)], by rw [hfw], hout, rfl, ?_⟩
  intro heq
  have h05 := congrArg (fun n => output_of n 0) heq
  simp only at h05
  rw [hout] at h05
  simp [output_of, last_layer] at h05

open neural_network in
/-- Witness for the amended C8 at the concrete network of the
counterexample, with `apply_changes = true`. -/
theorem C8_witness :
    learn_once
      ⟨true, ⟨1, 1, 1⟩, ⟨1, 1, 1⟩, 1,
        [⟨⟨1, 1, 1⟩, 1, fun _ => 0, fun _ => 0, fun _ => 0, fun _ => 0, fun _ => 0,
          fun _ => 5, fun x => x, fun x => x, fun x => x⟩]⟩
      ⟨fun _ => 1, ⟨1, 1, 1⟩, fun _ => 0, ⟨2, 1, 1⟩⟩ true =
      (⟨true, ⟨1, 1, 1⟩, ⟨1, 1, 1⟩, 1,
        [⟨⟨1, 1, 1⟩, 1, fun _ => 0, fun _ => 0, fun _ => 0, fun _ => 0, fun _ => 0,
          fun _ => 5, fun x => x, fun x => x, fun x => x⟩]⟩,
       some "The expected output does not have the correct format.") :=
  C8_learn_once_validates_before_forward _ _ true (by decide)

end CNN

namespace CNN

open neural_network in
/-- C10: `test` divides by the example count without checking for emptiness:
for every well-formed non-empty example list the loop never throws and the
call returns `accuracy = correct_predictions / data_count` and
`avg_cost = cost_sum / data_count` with `data_count = test_data.size()`; for
an empty example list it does not fail but returns a result whose accuracy
and average cost are divisions by `data_count = 0`. -/
theorem C10_test_divides_by_count_without_check (net : fc_net) (exs : List nn_data)
    (interp : (Nat → ℚ) → (Nat → ℚ) → Bool) :
    test net [] interp =
      .ok (⟨0, ((0 : Nat) : ℚ) / ((0 : Nat) : ℚ), (0 : ℚ) / ((0 : Nat) : ℚ)⟩, net) ∧
    ((0 : Nat) : ℚ) = 0 ∧
    (examples_ok net exs →
      ∃ net' correct_predictions cost_sum,
        test_loop interp net exs 0 0 = .ok (net', correct_predictions, cost_sum) ∧
        test net exs interp =
          .ok (⟨exs.length, (correct_predictions : ℚ) / ((exs.length : Nat) : ℚ),
            cost_sum / ((exs.length : Nat) : ℚ)⟩, net')) := by
  refine ⟨rfl, by norm_num, ?_⟩
  rintro ⟨hset, hne, hall⟩
  obtain ⟨net', c, s, hloop⟩ := test_loop_ok interp exs net 0 0 hset hne hall
  refine ⟨net', c, s, hloop, ?_⟩
  rw [test, hloop]

open neural_network in
/-- Witness for C10: a one-layer identity network. On the empty list, `test`
succeeds with `data_count = 0` and 0/0 divisions; on one example (data 1,
label 0, an interpreter accepting everything), it reports one correct
prediction out of one and zero average cost. -/
theorem C10_witness :
    result_of (test
      ⟨true, ⟨1, 1, 1⟩, ⟨1, 1, 1⟩, 1,
        [⟨⟨1, 1, 1⟩, 1, fun _ => 0, fun _ => 0, fun _ => 0, fun _ => 0, fun _ => 0,
          fun _ => 5, fun x => x, fun x => x, fun x => x⟩]⟩
      [] (fun _ _ => true)) = ⟨0, 0, 0⟩ ∧
    result_of (test
      ⟨true, ⟨1, 1, 1⟩, ⟨1, 1, 1⟩, 1,
        [⟨⟨1, 1, 1⟩, 1, fun _ => 0, fun _ => 0, fun _ => 0, fun _ => 0, fun _ => 0,
          fun _ => 5, fun x => x, fun x => x, fun x => x⟩]⟩
      [⟨fun _ => 1, ⟨1, 1, 1⟩, fun _ => 0, ⟨1, 1, 1⟩⟩] (fun _ _ => true)) =
      ⟨1, 1, 0⟩ := by
  have h := C10_test_divides_by_count_without_check
    ⟨true, ⟨1, 1, 1⟩, ⟨1, 1, 1⟩, 1,
      [⟨⟨1, 1, 1⟩, 1, fun _ => 0, fun _ => 0, fun _ => 0, fun _ => 0, fun _ => 0,
        fun _ => 5, fun x => x, fun x => x, fun x => x⟩]⟩
    [⟨fun _ => 1, ⟨1, 1, 1⟩, fun _ => 0, ⟨1, 1, 1⟩⟩] (fun _ _ => true)
  constructor
  · rw [h.1]
    show (⟨0, ((0 : Nat) : ℚ) / ((0 : Nat) : ℚ), (0 : ℚ) / ((0 : Nat) : ℚ)⟩ :
      test_result) = ⟨0, 0, 0⟩
    norm_num
  · obtain ⟨net', c, s, hloop, htest⟩ := h.2.2
      ⟨rfl, List.cons_ne_nil _ _, by
        intro td htd
        rcases List.mem_singleton.mp htd with rfl
        exact ⟨rfl, rfl⟩⟩
    have hval : loop_result (test_loop (fun _ _ => true)
        ⟨true, ⟨1, 1, 1⟩, ⟨1, 1, 1⟩, 1,
          [⟨⟨1, 1, 1⟩, 1, fun _ => 0, fun _ => 0, fun _ => 0, fun _ => 0, fun _ => 0,
            fun _ => 5, fun x => x, fun x => x, fun x => x⟩]⟩
        [⟨fun _ => 1, ⟨1, 1, 1⟩, fun _ => 0, ⟨1, 1, 1⟩⟩] 0 0) = (1, 0) := by
      simp [test_loop, forward_propagation, forward_layers, fc_layer_forward,
        calculate_cost, last_layer, output_of, write_buf, fmt.items, csum,
        gpu_math.host_dot_product, loop_result]
    rw [hloop] at hval
    have hc : c = 1 := congrArg Prod.fst hval
    have hs : s = 0 := congrArg Prod.snd hval
    rw [htest]
    show (⟨1, (c : ℚ) / ((1 : Nat) : ℚ), s / ((1 : Nat) : ℚ)⟩ : test_result) = ⟨1, 1, 0⟩
    rw [hc, hs]
    norm_num

end CNN
